import Mathlib

/-!
# coinexchain/dex : market handlers, genesis migration, bancor invariant

A shallow embedding of

* `modules/market/handlers.go` : the dispatcher of the four market messages,
  its precondition checks, `calculateAmount` and `marketStoreKey`;
* `cmd/cetd/migrate.go` : `upgradeGenesisState`;
* `modules/bancorlite/internal/keepers/invariants.go` :
  `BancorInfoConsistencyInvariant`.

Conventions.  A Go `string` and a Go `[]byte` are both lists of bytes
(`Bytes`); `int64` values are integers (`Int`), with an explicit wrap where the
source adds two of them; a `byte` is a natural number.  A function of the
source that can stop with a run-time panic returns an `Option`, `none` being
the panic.  The store is an association list from byte keys to stored records;
the binary codec is taken to round-trip, so that a stored value is the record
itself.
-/

set_option exponentiation.threshold 512

namespace Dex

/-- Go `string` and `[]byte`. -/
abbrev Bytes := List Nat

/-- The bytes of an ASCII string. -/
def ascii (s : String) : Bytes := s.data.map Char.toNat

/-! ## Fixed-point decimals (`sdk.Dec`) -/

/-- Modelled from the spec: `sdk.Dec`, the fixed-point decimal of the SDK the
handlers import (not under src/): an arbitrary-size integer counting units of
`10^-18`. -/
structure Dec where
  raw : Int
deriving DecidableEq, Repr

/-- Number of decimal places of a `Dec`. -/
def Precision : Nat := 18

/-- The scale `10^Precision`. -/
def precisionReuse : Int := 10 ^ Precision

/-- Half of the scale, the tie point of the rounding. -/
def fivePrecision : Int := precisionReuse / 2

/-- Rounding of a non-negative scaled integer to a whole number of units:
truncated quotient by `10^18`, one more when the remainder is above the half,
and on an exact half the even neighbour. -/
def chopNonneg (d : Int) : Int :=
  let quo := Int.tdiv d precisionReuse
  let rem := Int.tmod d precisionReuse
  if rem = 0 then quo
  else if rem < fivePrecision then quo
  else if rem > fivePrecision then quo + 1
  else if quo % 2 = 0 then quo
  else quo + 1

/-- Modelled from the spec: `chopPrecisionAndRound` of the decimal library:
removes the sign, rounds half to even, puts the sign back. -/
def chopPrecisionAndRound (d : Int) : Int :=
  if d < 0 then -(chopNonneg (-d)) else chopNonneg d

/-- The library refuses a decimal whose magnitude needs more than `255 + 60`
bits. -/
def decOverflow (x : Int) : Bool := decide (2 ^ 315 ≤ x.natAbs)

/-- Constructor `sdk.NewDec(i)`: the integer `i` as a decimal. -/
def NewDec (i : Int) : Dec := ⟨i * precisionReuse⟩

/-- Constant `sdk.ZeroDec()`. -/
def ZeroDec : Dec := ⟨0⟩

/-- Method `Dec.Quo`: the numerator is scaled twice, divided with truncation
and rounded back to 18 places.  `none` is the panic on a zero divisor or on
overflow. -/
def Dec.Quo (d d2 : Dec) : Option Dec :=
  if d2.raw = 0 then none
  else
    let mul := d.raw * precisionReuse * precisionReuse
    let quo := Int.tdiv mul d2.raw
    let chopped := chopPrecisionAndRound quo
    if decOverflow chopped then none else some ⟨chopped⟩

/-- Method `Dec.Mul`: product of the scaled integers, rounded back to 18
places.  `none` is the panic on overflow. -/
def Dec.Mul (d d2 : Dec) : Option Dec :=
  let mul := d.raw * d2.raw
  let chopped := chopPrecisionAndRound mul
  if decOverflow chopped then none else some ⟨chopped⟩

/-- Method `Dec.RoundInt`: the decimal rounded to an integer (half to even).
`none` is the panic of the integer type above 255 bits. -/
def Dec.RoundInt (d : Dec) : Option Int :=
  let c := chopPrecisionAndRound d.raw
  if 2 ^ 255 ≤ c.natAbs then none else some c

/-- The conversion `int64(math.Pow10(int(n)))`.  Up to `10^18` the power of ten
is an exact float and an exact `int64`; from `10^19` on the float is outside
`int64` and the conversion yields the smallest `int64`, as amd64 does. -/
def int64OfPow10 (n : Nat) : Int :=
  if (10 : Int) ^ n < 2 ^ 63 then 10 ^ n else -(2 ^ 63)

/-- Source `calculateAmount` (handlers.go 218-221):
`NewDec(price).Quo(NewDec(int64(Pow10(pricePrecision)))).Mul(NewDec(quantity))`. -/
def calculateAmount (price quantity : Int) (pricePrecision : Nat) : Option Dec :=
  match (NewDec price).Quo (NewDec (int64OfPow10 pricePrecision)) with
  | none => none
  | some actualPrice => actualPrice.Mul (NewDec quantity)

/-- The amount the order check asks for:
`calculateAmount(price, quantity, pricePrecision).RoundInt()`. -/
def freezeAmount (price quantity : Int) (pricePrecision : Nat) : Option Int :=
  match calculateAmount price quantity pricePrecision with
  | none => none
  | some d => d.RoundInt

/-! ## Results and errors -/

/-- Codespaces the handlers name: `StoreKey` (cancel-order errors),
`CodeSpaceMarket` (all other market errors) and the SDK root codespace. -/
inductive CodespaceType where
  | StoreKey
  | CodeSpaceMarket
  | CodespaceRoot
deriving DecidableEq, Repr

/-- Error codes, one constructor per code constant the handlers name; their
numeric values are declared outside src/ and are not needed.
`CodeDuplicateOrder` is the code of the `DuplicateOrder` error of the order
keeper, and `sdkCode n` is a code of the SDK root codespace. -/
inductive ErrCode where
  | CodeInvalidSymbol
  | CodeTokenNoExist
  | CodeInvalidTokenIssuer
  | CodeInvalidPricePrecision
  | CodeInsufficientCoins
  | CodeTokenFrozenByIssuer
  | CodeNoStoreEngine
  | CodeNotFindOrder
  | CodeNotMatchSender
  | CodeInvalidHeight
  | CodeDuplicateOrder
  | sdkCode (n : Nat)
deriving DecidableEq, Repr

/-- Result code: `CodeOK` or an error code. -/
inductive CodeType where
  | CodeOK
  | err (c : ErrCode)
deriving DecidableEq, Repr

/-- Value of type `sdk.Error`: codespace and code (the message text is left
out).  An error never carries `CodeOK`. -/
structure Error where
  Codespace : CodespaceType
  Code : ErrCode
deriving DecidableEq, Repr

/-- Constructor `sdk.NewError(codespace, code, msg)`. -/
def NewError (cs : CodespaceType) (c : ErrCode) : Error := ⟨cs, c⟩

/-! ## Records and messages -/

/-- Record `MarketInfo` as built at handlers.go 54-60. -/
structure MarketInfo where
  Stock : Bytes
  Money : Bytes
  Creator : Bytes
  PricePrecision : Nat
  LastExecutedPrice : Dec
deriving DecidableEq, Repr

/-- Record `Order` as built at handlers.go 105-119. -/
structure Order where
  Sender : Bytes
  Sequence : Nat
  Symbol : Bytes
  OrderType : Nat
  Price : Dec
  Quantity : Int
  Side : Nat
  TimeInForce : Int
  Height : Int
  LeftStock : Int
  Freeze : Int
  DealMoney : Int
  DealStock : Int
deriving DecidableEq, Repr

/-- Tags of a result: the tags of a created market, of a created order, or
none.  The tag builders (`GetTags`, `GetTagsInOrderCreate`) are not under src/;
their value is kept as the record they are computed from. -/
inductive Tags where
  | empty
  | ofMarketInfo (info : MarketInfo)
  | ofOrderCreate (order : Order)
deriving DecidableEq, Repr

/-- Value of type `sdk.Result`: code, codespace and tags. -/
structure Result where
  Code : CodeType
  Codespace : Option CodespaceType
  Tags : Tags
deriving DecidableEq, Repr

/-- Method `Result.IsOK`. -/
def Result.IsOK (r : Result) : Bool := decide (r.Code = CodeType.CodeOK)

/-- Literal `sdk.Result{}`. -/
def Result.okEmpty : Result := ⟨CodeType.CodeOK, none, Tags.empty⟩

/-- Literal `sdk.Result{Tags: t}`. -/
def Result.okTags (t : Dex.Tags) : Result := ⟨CodeType.CodeOK, none, t⟩

/-- Method `Error.Result`: the error result carrying the code and codespace. -/
def Error.Result (e : Error) : Dex.Result := ⟨CodeType.err e.Code, some e.Codespace, Tags.empty⟩

/-- Message `MsgCreateMarketInfo`. -/
structure MsgCreateMarketInfo where
  Stock : Bytes
  Money : Bytes
  Creator : Bytes
  PricePrecision : Nat
deriving DecidableEq, Repr

/-- Message `MsgCreateOrder`. -/
structure MsgCreateOrder where
  Sender : Bytes
  Sequence : Nat
  Symbol : Bytes
  OrderType : Nat
  PricePrecision : Nat
  Price : Int
  Quantity : Int
  Side : Nat
  TimeInForce : Int
deriving DecidableEq, Repr

/-- Message `MsgCancelOrder`. -/
structure MsgCancelOrder where
  Sender : Bytes
  OrderID : Bytes
deriving DecidableEq, Repr

/-- Message `MsgCancelMarket`. -/
structure MsgCancelMarket where
  Sender : Bytes
  Symbol : Bytes
  EffectiveHeight : Int
deriving DecidableEq, Repr

/-- Interface `sdk.Msg` as the type switch of `NewHandler` sees it: one of the
four market messages, or a message of another type (with its `Type()`). -/
inductive Msg where
  | createMarketInfo (m : MsgCreateMarketInfo)
  | createOrder (m : MsgCreateOrder)
  | cancelOrder (m : MsgCancelOrder)
  | cancelMarket (m : MsgCancelMarket)
  | other (type : Bytes)
deriving DecidableEq, Repr

/-- Value of type `sdk.Coin`. -/
structure Coin where
  Denom : Bytes
  Amount : Int
deriving DecidableEq, Repr

/-- A byte in `a`..`z`. -/
def isLowerLetter (b : Nat) : Bool := decide (97 ≤ b ∧ b ≤ 122)

/-- A byte in `a`..`z` or in `0`..`9`. -/
def isLowerLetterOrDigit (b : Nat) : Bool := isLowerLetter b || decide (48 ≤ b ∧ b ≤ 57)

/-- The denominations the coin library accepts, `[a-z][a-z0-9]{2,15}`: a
lower-case letter followed by 2 to 15 lower-case letters or digits. -/
def validDenom (denom : Bytes) : Bool :=
  match denom with
  | [] => false
  | c :: rest =>
    isLowerLetter c && rest.all isLowerLetterOrDigit
      && decide (2 ≤ rest.length) && decide (rest.length ≤ 15)

/-- Constructor `sdk.NewCoin(denom, amount)`.  `none` is its panic on a
denomination outside `[a-z][a-z0-9]{2,15}` and on a negative amount. -/
def NewCoin (denom : Bytes) (amount : Int) : Option Coin :=
  if !validDenom denom then none
  else if amount < 0 then none
  else some ⟨denom, amount⟩

/-! ## The key-value store and the context -/

/-- A stored value: the binary encoding of a market, of an order, or the
marker of a delist request. -/
inductive Value where
  | market (info : MarketInfo)
  | order (o : Order)
  | marker
deriving DecidableEq, Repr

/-- The key-value store of the market module. -/
abbrev Store := List (Bytes × Value)

/-- Method `KVStore.Get`: the value under a key, `none` for Go `nil`. -/
def Store.Get : Store → Bytes → Option Value
  | [], _ => none
  | (k, v) :: rest, key => if k = key then some v else Store.Get rest key

/-- Method `KVStore.Delete`. -/
def Store.Delete (s : Store) (key : Bytes) : Store :=
  s.filter (fun p => decide (p.1 ≠ key))

/-- Method `KVStore.Set`. -/
def Store.Set (s : Store) (key : Bytes) (v : Value) : Store :=
  (key, v) :: Store.Delete s key

/-- Value of type `sdk.Context`, as far as the handlers read it: the handle of
the market store (`none` when the handle is `nil`) and the block height. -/
structure Context where
  store : Option Store
  height : Int
deriving DecidableEq, Repr

/-- Method `ctx.KVStore(keeper.marketKey)`. -/
def Context.KVStore (ctx : Context) : Option Store := ctx.store

/-- Method `ctx.BlockHeight()`. -/
def Context.BlockHeight (ctx : Context) : Int := ctx.height

/-- The context after a write to the market store. -/
def Context.withStore (ctx : Context) (s : Store) : Context := ⟨some s, ctx.height⟩

/-! ## Collaborators and package-level declarations -/

/-- Asset registry consumed by the handlers (`keeper.axk`). -/
structure AssetKeeper where
  IsTokenExists : Context → Bytes → Bool
  IsTokenIssuer : Context → Bytes → Bytes → Bool
  IsTokenFrozen : Context → Bytes → Bool

/-- Balance ledger consumed by the handlers (`keeper.bnk`). -/
structure BankKeeper where
  HasCoins : Context → Bytes → List Coin → Bool

/-- Declarations of package `market` that handlers.go uses and src/ does not
hold, taken as parameters: the key prefixes and integer encodings of the
keepers, the constant `match.BUY`, the creation fee `CreateMarketSpendCet`, and
the `ValidateBasic` methods of the three messages that are validated in the
handler (`none` is Go `nil`, no error). -/
structure Package where
  MarketIdentifierPrefix : Bytes
  OrderIdentifierPrefix : Bytes → Bytes
  GlobalOrderIdentifierPrefix : Bytes
  DelistIdentifierPrefix : Bytes
  encodeSequence : Nat → Bytes
  encodeHeight : Int → Bytes
  BUY : Nat
  CreateMarketSpendCet : Coin
  validateCreateOrder : MsgCreateOrder → Option Error
  validateCancelOrder : MsgCancelOrder → Option Error
  validateCancelMarket : MsgCancelMarket → Option Error

/-- Type `Keeper` of the market module: the asset and bank collaborators. -/
structure Keeper where
  axk : AssetKeeper
  bnk : BankKeeper

/-! ## Constants of handlers.go -/

/-- Constant `MinTokenPricePrecision`. -/
def MinTokenPricePrecision : Nat := 8

/-- Constant `MaxTokenPricePrecision`. -/
def MaxTokenPricePrecision : Nat := 18

/-- The one byte of the separator, the character "/". -/
def SymbolSeparatorByte : Nat := 47

/-- Constant `SymbolSeparator`, the string "/". -/
def SymbolSeparator : Bytes := [SymbolSeparatorByte]

/-- Constant `MinEffectHeight`. -/
def MinEffectHeight : Int := 10000

/-- Two's-complement wrap of an integer into `int64`. -/
def wrapInt64 (x : Int) : Int := (x + 2 ^ 63) % 2 ^ 64 - 2 ^ 63

/-! ## Error constructors and keepers of package `market` -/

/-- Modelled from the spec: error constructor `ErrInvalidSymbol` (errors.go, not
under src/), the error kind `DuplicateSymbol` of a pair already in use. -/
def ErrInvalidSymbol : Error := NewError CodespaceType.CodeSpaceMarket ErrCode.CodeInvalidSymbol

/-- Modelled from the spec: error constructor `ErrTokenNoExist` (errors.go, not
under src/), the error kind `TokenNotFound`. -/
def ErrTokenNoExist : Error := NewError CodespaceType.CodeSpaceMarket ErrCode.CodeTokenNoExist

/-- Modelled from the spec: error constructor `ErrInvalidTokenIssuer` (errors.go,
not under src/), the error kind `InvalidTokenIssuer`. -/
def ErrInvalidTokenIssuer : Error :=
  NewError CodespaceType.CodeSpaceMarket ErrCode.CodeInvalidTokenIssuer

/-- Modelled from the spec: error constructor `ErrInvalidPricePrecision`
(errors.go, not under src/), the error kind `InvalidPricePrecision`. -/
def ErrInvalidPricePrecision : Error :=
  NewError CodespaceType.CodeSpaceMarket ErrCode.CodeInvalidPricePrecision

/-- Modelled from the spec: error constructor `ErrInsufficientCoins` (errors.go,
not under src/), the error kind `InsufficientBalance`. -/
def ErrInsufficientCoins : Error :=
  NewError CodespaceType.CodeSpaceMarket ErrCode.CodeInsufficientCoins

/-- Modelled from the spec: error constructor `ErrTokenFrozenByIssuer`
(errors.go, not under src/), the error kind `TokenFrozenByIssuer`. -/
def ErrTokenFrozenByIssuer : Error :=
  NewError CodespaceType.CodeSpaceMarket ErrCode.CodeTokenFrozenByIssuer

/-- Modelled from the spec: error constructor `ErrNoStoreEngine` (errors.go, not
under src/), the error kind `StorageUnavailable`. -/
def ErrNoStoreEngine : Error := NewError CodespaceType.CodeSpaceMarket ErrCode.CodeNoStoreEngine

/-- Library error `sdk.ErrUnknownRequest` (root codespace, code 6). -/
def ErrUnknownRequest : Error := NewError CodespaceType.CodespaceRoot (ErrCode.sdkCode 6)

/-- Library error `sdk.ErrInvalidAddress` (root codespace, code 7). -/
def ErrInvalidAddress : Error := NewError CodespaceType.CodespaceRoot (ErrCode.sdkCode 7)

/-- Modelled from the spec: `MsgCancelOrder.ValidateBasic` (msgs.go, not under
src/), the stateless structural validation of the required fields: a message
carries a sender identity, so one with an empty `Sender` is refused. -/
def MsgCancelOrder.ValidateBasic (msg : MsgCancelOrder) : Option Error :=
  if msg.Sender = [] then some ErrInvalidAddress else none

/-- Modelled from the spec: `MsgCancelMarket.ValidateBasic` (msgs.go, not under
src/), the stateless structural validation of the required fields: a message
carries a sender identity, so one with an empty `Sender` is refused. -/
def MsgCancelMarket.ValidateBasic (msg : MsgCancelMarket) : Option Error :=
  if msg.Sender = [] then some ErrInvalidAddress else none

/-- Source `marketStoreKey` (handlers.go 223-231): the bytes of the prefix
followed by the bytes of every parameter, in order. -/
def marketStoreKey (pfx : Bytes) (params : List Bytes) : Bytes :=
  params.foldl (fun buf param => buf ++ param) pfx

/-- Modelled from the spec: `Keeper.GetMarketInfo` (keeper.go, not under src/):
returns the record stored under `prefix(Market) || symbol`, or fails with
`SymbolNotFound`.  The outer `none` is a panic (no store handle, or a value that
does not decode as a market); the inner `none` is the returned error. -/
def GetMarketInfo (pkg : Package) (ctx : Context) (symbol : Bytes) : Option (Option MarketInfo) :=
  match ctx.KVStore with
  | none => none
  | some store =>
    match store.Get (marketStoreKey pkg.MarketIdentifierPrefix [symbol]) with
    | none => some none
    | some (Value.market info) => some (some info)
    | some _ => none

/-- Keeper of the orders of one symbol (`NewOrderKeeper(key, symbol, cdc)`). -/
structure OrderKeeper where
  symbol : Bytes
deriving DecidableEq, Repr

/-- Constructor `NewOrderKeeper`. -/
def NewOrderKeeper (symbol : Bytes) : OrderKeeper := ⟨symbol⟩

/-- Modelled from the spec: the global identifier of an order, derived from
`(Sender, Sequence)`: `Sender || Sequence`. -/
def Order.OrderID (pkg : Package) (o : Order) : Bytes :=
  o.Sender ++ pkg.encodeSequence o.Sequence

/-- Modelled from the spec: key of an order in the keeper of its symbol,
`prefix(Order, Symbol) || Sender || Sequence`. -/
def orderStoreKey (pkg : Package) (symbol : Bytes) (o : Order) : Bytes :=
  pkg.OrderIdentifierPrefix symbol ++ o.Sender ++ pkg.encodeSequence o.Sequence

/-- Modelled from the spec: key of the global order index,
`prefix(GlobalOrder) || Sender || Sequence`, from the global identifier. -/
def globalOrderStoreKey (pkg : Package) (orderID : Bytes) : Bytes :=
  pkg.GlobalOrderIdentifierPrefix ++ orderID

/-- Modelled from the spec: `OrderKeeper.Add` (order keeper, not under src/):
fails with `DuplicateOrder` if the derived identifier already exists; otherwise
persists the order under its symbol-scoped key and indexes it for global
lookup.  Returns the error (if any) and the context after the call; the outer
`none` is a panic (no store handle). -/
def OrderKeeper.Add (pkg : Package) (ork : OrderKeeper) (ctx : Context) (order : Order) :
    Option (Option Error × Context) :=
  match ctx.KVStore with
  | none => none
  | some store =>
    let gkey := globalOrderStoreKey pkg (order.OrderID pkg)
    if (store.Get gkey).isSome then
      some (some (NewError CodespaceType.CodeSpaceMarket ErrCode.CodeDuplicateOrder), ctx)
    else
      let store1 := store.Set (orderStoreKey pkg ork.symbol order) (Value.order order)
      some (none, ctx.withStore (store1.Set gkey (Value.order order)))

/-- Modelled from the spec: `OrderKeeper.Remove` (order keeper, not under src/):
deletes the order from both the symbol-scoped and the global index; fails with
`OrderNotFound` if absent.  Returns the error (if any) and the context after
the call; the outer `none` is a panic (no store handle). -/
def OrderKeeper.Remove (pkg : Package) (ork : OrderKeeper) (ctx : Context) (order : Order) :
    Option (Option Error × Context) :=
  match ctx.KVStore with
  | none => none
  | some store =>
    let key := orderStoreKey pkg ork.symbol order
    if (store.Get key).isNone then
      some (some (NewError CodespaceType.CodeSpaceMarket ErrCode.CodeNotFindOrder), ctx)
    else
      let store1 := store.Delete key
      some (none, ctx.withStore (store1.Delete (globalOrderStoreKey pkg (order.OrderID pkg))))

/-- Modelled from the spec: `GlobalOrderKeeper.QueryOrder` (not under src/):
lookup of an order by its global identifier, independent of the symbol.  The
outer `none` is a panic (no store handle, or a value that does not decode as an
order); the inner `none` is Go `nil`, no such order. -/
def QueryOrder (pkg : Package) (ctx : Context) (orderID : Bytes) : Option (Option Order) :=
  match ctx.KVStore with
  | none => none
  | some store =>
    match store.Get (globalOrderStoreKey pkg orderID) with
    | none => some none
    | some (Value.order o) => some (some o)
    | some _ => none

/-- Modelled from the spec: key of a delist schedule,
`prefix(Delist) || EffectiveHeight || Symbol`. -/
def delistStoreKey (pkg : Package) (effectiveHeight : Int) (symbol : Bytes) : Bytes :=
  pkg.DelistIdentifierPrefix ++ pkg.encodeHeight effectiveHeight ++ symbol

/-- Modelled from the spec: `DelistKeeper.AddDelistRequest` (not under src/):
stores the schedule keyed by `(effectiveHeight, symbol)` with a marker value.
`none` is a panic (no store handle). -/
def AddDelistRequest (pkg : Package) (ctx : Context) (effectiveHeight : Int) (symbol : Bytes) :
    Option Context :=
  match ctx.KVStore with
  | none => none
  | some store =>
    some (ctx.withStore (store.Set (delistStoreKey pkg effectiveHeight symbol) Value.marker))

/-- Library `strings.Split(s, sep)` for a one-byte separator, the case of
`SymbolSeparator`: the pieces of `s` between the occurrences of `sep`. -/
def Split (s : Bytes) (sep : Nat) : List Bytes :=
  match s with
  | [] => [[]]
  | c :: cs =>
    if c = sep then [] :: Split cs sep
    else
      match Split cs sep with
      | [] => [[c]]
      | piece :: pieces => (c :: piece) :: pieces

/-! ## The handlers of handlers.go -/

/-- Source `checkMsgCreateMarketInfo` (handlers.go 69-93).  `none` is the panic
of reading through a `nil` store handle. -/
def checkMsgCreateMarketInfo (pkg : Package) (ctx : Context) (msg : MsgCreateMarketInfo)
    (keeper : Keeper) : Option Result :=
  let key := marketStoreKey pkg.MarketIdentifierPrefix [msg.Stock ++ SymbolSeparator ++ msg.Money]
  match ctx.KVStore with
  | none => none
  | some store =>
    if (store.Get key).isSome then
      some ErrInvalidSymbol.Result
    else if !keeper.axk.IsTokenExists ctx msg.Money || !keeper.axk.IsTokenExists ctx msg.Stock then
      some ErrTokenNoExist.Result
    else if !keeper.axk.IsTokenIssuer ctx msg.Stock msg.Creator
        && !keeper.axk.IsTokenIssuer ctx msg.Money msg.Creator then
      some ErrInvalidTokenIssuer.Result
    else if msg.PricePrecision < MinTokenPricePrecision
        ∨ msg.PricePrecision > MaxTokenPricePrecision then
      some ErrInvalidPricePrecision.Result
    else if !keeper.bnk.HasCoins ctx msg.Creator [pkg.CreateMarketSpendCet] then
      some ErrInsufficientCoins.Result
    else
      some Result.okEmpty

/-- Source `handleMsgCreateMarketInfo` (handlers.go 49-67): the result and the
context after the call. -/
def handleMsgCreateMarketInfo (pkg : Package) (ctx : Context) (msg : MsgCreateMarketInfo)
    (keeper : Keeper) : Option (Result × Context) :=
  match checkMsgCreateMarketInfo pkg ctx msg keeper with
  | none => none
  | some ret =>
    if !ret.IsOK then some (ret, ctx)
    else
      let info : MarketInfo :=
        { Stock := msg.Stock
          Money := msg.Money
          Creator := msg.Creator
          PricePrecision := msg.PricePrecision
          LastExecutedPrice := ZeroDec }
      let key := marketStoreKey pkg.MarketIdentifierPrefix
        [info.Stock ++ SymbolSeparator ++ info.Money]
      let value := Value.market info
      match ctx.KVStore with
      | none => none
      | some store =>
        some (Result.okTags (Tags.ofMarketInfo info), ctx.withStore (store.Set key value))

/-- Source `checkMsgCreateOrder` (handlers.go 129-157).  `none` is a panic: the
index `values[1]` out of range, a `nil` store handle, one from the decimal
arithmetic, or the one of `sdk.NewCoin` on a denomination the coin library
does not accept or on a negative amount. -/
def checkMsgCreateOrder (pkg : Package) (ctx : Context) (_store : Store) (msg : MsgCreateOrder)
    (keeper : Keeper) : Option Result :=
  match pkg.validateCreateOrder msg with
  | some err => some err.Result
  | none =>
    let values := Split msg.Symbol SymbolSeparatorByte
    match values[0]? with
    | none => none
    | some value0 =>
      match (if msg.Side = pkg.BUY then values[1]? else some value0) with
      | none => none
      | some denom =>
        match GetMarketInfo pkg ctx msg.Symbol with
        | none => none
        | some none => some ErrInvalidPricePrecision.Result
        | some (some marketInfo) =>
          if msg.PricePrecision > marketInfo.PricePrecision then
            some ErrInvalidPricePrecision.Result
          else
            match freezeAmount msg.Price msg.Quantity msg.PricePrecision with
            | none => none
            | some amount =>
              match NewCoin denom amount with
              | none => none
              | some coin =>
                if !keeper.bnk.HasCoins ctx msg.Sender [coin] then
                  some ErrInsufficientCoins.Result
                else if keeper.axk.IsTokenFrozen ctx denom then
                  some ErrTokenFrozenByIssuer.Result
                else
                  some Result.okEmpty

/-- Source `handleMsgCreateOrder` (handlers.go 95-127): the result and the
context after the call. -/
def handleMsgCreateOrder (pkg : Package) (ctx : Context) (msg : MsgCreateOrder)
    (keeper : Keeper) : Option (Result × Context) :=
  match ctx.KVStore with
  | none => some (ErrNoStoreEngine.Result, ctx)
  | some store =>
    match checkMsgCreateOrder pkg ctx store msg keeper with
    | none => none
    | some ret =>
      if !ret.IsOK then some (ret, ctx)
      else
        let order : Order :=
          { Sender := msg.Sender
            Sequence := msg.Sequence
            Symbol := msg.Symbol
            OrderType := msg.OrderType
            Price := NewDec msg.Price
            Quantity := msg.Quantity
            Side := msg.Side
            TimeInForce := msg.TimeInForce
            Height := ctx.BlockHeight
            LeftStock := 0
            Freeze := 0
            DealMoney := 0
            DealStock := 0 }
        let ork := NewOrderKeeper order.Symbol
        match ork.Add pkg ctx order with
        | none => none
        | some (some err, ctx1) => some (err.Result, ctx1)
        | some (none, ctx1) => some (Result.okTags (Tags.ofOrderCreate order), ctx1)

/-- Source `handleMsgCancelOrder` (handlers.go 159-181): the result and the
context after the call. -/
def handleMsgCancelOrder (pkg : Package) (ctx : Context) (msg : MsgCancelOrder)
    (_keeper : Keeper) : Option (Result × Context) :=
  match pkg.validateCancelOrder msg with
  | some err => some (err.Result, ctx)
  | none =>
    match QueryOrder pkg ctx msg.OrderID with
    | none => none
    | some none =>
      some ((NewError CodespaceType.StoreKey ErrCode.CodeNotFindOrder).Result, ctx)
    | some (some order) =>
      if order.Sender ≠ msg.Sender then
        some ((NewError CodespaceType.StoreKey ErrCode.CodeNotMatchSender).Result, ctx)
      else
        let ork := NewOrderKeeper order.Symbol
        match ork.Remove pkg ctx order with
        | none => none
        | some (some err, ctx1) => some (err.Result, ctx1)
        | some (none, ctx1) => some (Result.okEmpty, ctx1)

/-- Source `checkMsgCancelMarket` (handlers.go 195-216): the error, or `none`
for Go `nil`.  The outer `none` is a panic.  The sum of the two `int64` values
wraps. -/
def checkMsgCancelMarket (pkg : Package) (_keeper : Keeper) (msg : MsgCancelMarket)
    (ctx : Context) : Option (Option Error) :=
  match pkg.validateCancelMarket msg with
  | some err => some (some err)
  | none =>
    let currHeight := ctx.BlockHeight
    if msg.EffectiveHeight < wrapInt64 (currHeight + MinEffectHeight) then
      some (some (NewError CodespaceType.CodeSpaceMarket ErrCode.CodeInvalidHeight))
    else
      match GetMarketInfo pkg ctx msg.Symbol with
      | none => none
      | some none =>
        some (some (NewError CodespaceType.CodeSpaceMarket ErrCode.CodeInvalidSymbol))
      | some (some info) =>
        if info.Creator ≠ msg.Sender then
          some (some (NewError CodespaceType.CodeSpaceMarket ErrCode.CodeNotMatchSender))
        else
          some none

/-- Source `handleMsgCancelMarket` (handlers.go 183-193): the result and the
context after the call. -/
def handleMsgCancelMarket (pkg : Package) (ctx : Context) (msg : MsgCancelMarket)
    (keeper : Keeper) : Option (Result × Context) :=
  match checkMsgCancelMarket pkg keeper msg ctx with
  | none => none
  | some (some err) => some (err.Result, ctx)
  | some none =>
    match AddDelistRequest pkg ctx msg.EffectiveHeight msg.Symbol with
    | none => none
    | some ctx1 => some (Result.okEmpty, ctx1)

/-- Source `NewHandler` (handlers.go 31-47): the dispatch on the message type. -/
def NewHandler (pkg : Package) (k : Keeper) (ctx : Context) (msg : Msg) :
    Option (Result × Context) :=
  match msg with
  | Msg.createMarketInfo m => handleMsgCreateMarketInfo pkg ctx m k
  | Msg.createOrder m => handleMsgCreateOrder pkg ctx m k
  | Msg.cancelOrder m => handleMsgCancelOrder pkg ctx m k
  | Msg.cancelMarket m => handleMsgCancelMarket pkg ctx m k
  | Msg.other _ => some (ErrUnknownRequest.Result, ctx)

/-! ## Genesis migration (cmd/cetd/migrate.go) -/

namespace Cetd

/-- Modelled from the spec: the order record of a genesis file, as far as the
migration reads it (the type is declared outside src/): the legacy field
`FrozenFee`, the current field `FrozenCommission`, and the remaining fields,
which the migration does not name, in encoded form. -/
structure Order where
  FrozenFee : Int
  FrozenCommission : Int
  rest : Bytes
deriving DecidableEq, Repr

/-- Parameters of a module, in encoded form. -/
structure Params where
  encoded : Bytes
deriving DecidableEq, Repr

/-- Part `AssetData` of the genesis state. -/
structure AssetGenesis where
  Params : Cetd.Params
  rest : Bytes
deriving DecidableEq, Repr

/-- Modelled from the spec: part `MarketData` of the genesis state; `Orders`
holds the persisted order records by reference, so that the writes of the
migration loop land in the genesis state. -/
structure MarketGenesis where
  Params : Cetd.Params
  Orders : List Order
  rest : Bytes
deriving DecidableEq, Repr

/-- Type `app.GenesisState`, as far as the migration reads it. -/
structure GenesisState where
  AssetData : AssetGenesis
  MarketData : MarketGenesis
  rest : Bytes
deriving DecidableEq, Repr

/-- The default parameters `asset.DefaultParams()` and `market.DefaultParams()`,
declared outside src/ and taken as parameters. -/
structure Defaults where
  assetDefaultParams : Params
  marketDefaultParams : Params
deriving DecidableEq, Repr

/-- Body of the loop of `upgradeGenesisState` (migrate.go 67-70) on one order. -/
def upgradeOrder (v : Order) : Order :=
  if v.FrozenFee ≠ 0 then
    { v with FrozenCommission := v.FrozenFee, FrozenFee := 0 }
  else v

/-- Source `upgradeGenesisState` (migrate.go 63-73): the genesis state after
the call. -/
def upgradeGenesisState (dflt : Defaults) (genState : GenesisState) : GenesisState :=
  { genState with
    AssetData := { genState.AssetData with Params := dflt.assetDefaultParams }
    MarketData :=
      { genState.MarketData with
        Params := dflt.marketDefaultParams
        Orders := genState.MarketData.Orders.map upgradeOrder } }

/-- The migration of one order in the words of the specification: a non-zero
legacy field is moved to the current field and zeroed, the other fields kept;
an order with a zero legacy field is unchanged. -/
def Migrated (old new : Order) : Prop :=
  (old.FrozenFee ≠ 0 →
      new.FrozenCommission = old.FrozenFee ∧ new.FrozenFee = 0 ∧ new.rest = old.rest) ∧
    (old.FrozenFee = 0 → new = old)

instance (old new : Order) : Decidable (Migrated old new) := by
  unfold Migrated
  infer_instance

end Cetd

/-! ## The consistency invariant of bancorlite (internal/keepers/invariants.go) -/

namespace Bancorlite

/-- Modelled from the spec: the record `BancorInfo` (declared outside src/), as
far as the invariant reads it: the two token symbols, and the remaining fields,
which the invariant does not name, in encoded form. -/
structure BancorInfo where
  Stock : Bytes
  Money : Bytes
  rest : Bytes
deriving DecidableEq, Repr

/-- The store of the bancor keeper: the persisted records with their keys, in
the order of the keys, which is the order in which the store is iterated. -/
abbrev BancorStore := List (Bytes × BancorInfo)

/-- Value of type `sdk.Context`, as far as the invariant reads it: the store of
the bancor keeper. -/
structure Context where
  store : BancorStore
deriving DecidableEq, Repr

/-- Declarations of package `keepers` that invariants.go uses and src/ does not
hold, taken as parameters: the predicate `BancorInfo.IsConsistent`, the constant
`SymbolSeparator` and the constant `types.ModuleName`. -/
structure Package where
  IsConsistent : BancorInfo → Bool
  SymbolSeparator : Bytes
  ModuleName : Bytes

/-- Keeper of the bancor records (`keeper.Bik`), named by its store key. -/
structure BancorInfoKeeper where
  biKey : Bytes
deriving DecidableEq, Repr

/-- Type `Keeper` of the bancorlite module, as far as the invariant reads it. -/
structure Keeper where
  Bik : BancorInfoKeeper
deriving DecidableEq, Repr

/-- Modelled from the spec: `BancorInfoKeeper.Iterate` (not under src/): a
read-only traversal that calls the visitor on every persisted record, in key
order.  The visitor of the source returns nothing and acts on the variables of
its closure; here it is a function on the values of these variables.  Returns
their final values and the context after the call. -/
def BancorInfoKeeper.Iterate {α : Type} (_bik : BancorInfoKeeper) (ctx : Context)
    (visit : α → BancorInfo → α) (init : α) : α × Context :=
  (ctx.store.foldl (fun acc entry => visit acc entry.2) init, ctx)

/-- Verb `%d` of `fmt.Sprintf` on a non-negative `int`: its decimal digits. -/
def decimal (n : Nat) : Bytes := (Nat.toDigits 10 n).map Char.toNat

/-- Library `sdk.FormatInvariant(module, name, msg)`, the format
`"%s: %s invariant\n%s\n"`. -/
def FormatInvariant (moduleName name msg : Bytes) : Bytes :=
  moduleName ++ ascii ": " ++ name ++ ascii " invariant\n" ++ msg ++ ascii "\n"

/-- Source `BancorInfoConsistencyInvariant` (invariants.go 11-27): the summary,
the flag `broken`, and the context after the call.  The variables `count` and
`msg` of the closure are the two components of the visitor's state; `count`
counts visited records and stays far below the range of `int`. -/
def BancorInfoConsistencyInvariant (pkg : Package) (keeper : Keeper) (ctx : Context) :
    (Bytes × Bool) × Context :=
  let out := keeper.Bik.Iterate ctx
    (fun (vars : Nat × Bytes) (bi : BancorInfo) =>
      if !pkg.IsConsistent bi then
        (vars.1 + 1,
          vars.2 ++ (ascii " bancor Info " ++ (bi.Stock ++ pkg.SymbolSeparator ++ bi.Money)
            ++ ascii " consistency is broken!"))
      else vars)
    (0, [])
  let count := out.1.1
  let msg := out.1.2
  let broken := decide (count > 0)
  ((FormatInvariant pkg.ModuleName (ascii "bancor info inconsistency")
      (ascii "found " ++ decimal count
        ++ ascii " bancor info inconsistent with initialization " ++ msg), broken), out.2)

/-- The records the keeper's `Iterate` visits in a state, in iteration order. -/
def visited (ctx : Context) : List BancorInfo := ctx.store.map Prod.snd

/-- The sentence of the summary that names a record by its `Stock/Money`
symbol. -/
def brokenLine (pkg : Package) (bi : BancorInfo) : Bytes :=
  ascii " bancor Info " ++ (bi.Stock ++ pkg.SymbolSeparator ++ bi.Money)
    ++ ascii " consistency is broken!"

/-- The summary in the words of the specification: the number of records that
fail the consistency predicate, then one sentence per failing record, in
iteration order. -/
def expectedSummary (pkg : Package) (records : List BancorInfo) : Bytes :=
  FormatInvariant pkg.ModuleName (ascii "bancor info inconsistency")
    (ascii "found " ++ decimal (records.countP fun bi => !pkg.IsConsistent bi)
      ++ ascii " bancor info inconsistent with initialization "
      ++ ((records.filter fun bi => !pkg.IsConsistent bi).map (brokenLine pkg)).flatten)

/-- A package instance: a record is consistent when its remaining fields are
empty; separator "/", module name `bancorlite`. -/
def demoPackage : Package where
  IsConsistent := fun bi => decide (bi.rest = [])
  SymbolSeparator := ascii "/"
  ModuleName := ascii "bancorlite"

/-- A state with three records, the first and the third inconsistent. -/
def demoCtx : Context :=
  ⟨[([1], ⟨ascii "abc", ascii "cet", [1]⟩),
    ([2], ⟨ascii "btc", ascii "cet", []⟩),
    ([3], ⟨ascii "eth", ascii "cet", [7]⟩)]⟩

end Bancorlite

/-! ## Concrete instances used to evaluate the definitions -/

/-- A package instance: one-byte key prefixes, `BUY = 1`, a fee of 100 `cet`,
and validation methods that accept every message. -/
def demoPackage : Package where
  MarketIdentifierPrefix := [1]
  OrderIdentifierPrefix := fun symbol => 2 :: symbol
  GlobalOrderIdentifierPrefix := [3]
  DelistIdentifierPrefix := [4]
  encodeSequence := fun n => [n]
  encodeHeight := fun h => [h.toNat]
  BUY := 1
  CreateMarketSpendCet := ⟨ascii "cet", 100⟩
  validateCreateOrder := fun _ => none
  validateCancelOrder := fun _ => none
  validateCancelMarket := fun _ => none

/-- Collaborators in which every token exists, account `A` (byte 65) is the
issuer of every token, nothing is frozen and every balance suffices. -/
def demoKeeper : Keeper where
  axk := ⟨fun _ _ => true, fun _ _ a => decide (a = [65]), fun _ _ => false⟩
  bnk := ⟨fun _ _ _ => true⟩

/-- Collaborators as `demoKeeper`, except that no balance suffices and every
token is frozen. -/
def frozenKeeper : Keeper where
  axk := ⟨fun _ _ => true, fun _ _ a => decide (a = [65]), fun _ _ => true⟩
  bnk := ⟨fun _ _ _ => false⟩

/-- The market `ETH/CET` with precision 8 created by account `A`. -/
def ethCet : MarketInfo := ⟨ascii "ETH", ascii "CET", [65], 8, ZeroDec⟩

/-- The empty store at height 100. -/
def emptyCtx : Context := ⟨some [], 100⟩

/-- The store holding only the market `ETH/CET`, at height 100. -/
def marketCtx : Context := ⟨some [(1 :: ascii "ETH/CET", Value.market ethCet)], 100⟩

/-- The package `demoPackage` with the validation of the two cancel messages
as modelled from the specification. -/
def strictPackage : Package :=
  { demoPackage with
    validateCancelOrder := MsgCancelOrder.ValidateBasic
    validateCancelMarket := MsgCancelMarket.ValidateBasic }

/-- Balances of a small ledger: account `B` (byte 66) holds 10 `cet`, account
`A` (byte 65) holds 10 `eth`, nobody holds anything else. -/
def ledgerBalance (account denom : Bytes) : Int :=
  if account = [66] ∧ denom = ascii "cet" then 10
  else if account = [65] ∧ denom = ascii "eth" then 10
  else 0

/-- Collaborators that tell accounts and denominations apart: the tokens `eth`
and `cet` exist, `A` is the issuer of `eth`, `eth` is frozen by its issuer and
`cet` is not, and an account has the coins asked when each amount is within
its balance. -/
def ledgerKeeper : Keeper where
  axk :=
    ⟨fun _ token => decide (token = ascii "eth" ∨ token = ascii "cet"),
      fun _ token account => decide (token = ascii "eth" ∧ account = [65]),
      fun _ token => decide (token = ascii "eth")⟩
  bnk := ⟨fun _ account coins => coins.all fun c => decide (c.Amount ≤ ledgerBalance account c.Denom)⟩

/-- The market `eth/cet` with precision 8 created by account `A`. -/
def tradeMarket : MarketInfo := ⟨ascii "eth", ascii "cet", [65], 8, ZeroDec⟩

/-- The store holding only the market `eth/cet`, at height 100. -/
def tradeCtx : Context := ⟨some [(1 :: ascii "eth/cet", Value.market tradeMarket)], 100⟩

/-- The store holding the market `eth/cet` and the order of account `B` with
sequence 7 (both indices), at height 100. -/
def orderCtx : Context :=
  ⟨some
    [ ([3, 66, 7], Value.order
        ⟨[66], 7, ascii "eth/cet", 2, NewDec 100000000, 10, 1, 3, 100, 0, 0, 0, 0⟩),
      (2 :: (ascii "eth/cet" ++ [66, 7]), Value.order
        ⟨[66], 7, ascii "eth/cet", 2, NewDec 100000000, 10, 1, 3, 100, 0, 0, 0, 0⟩),
      (1 :: ascii "eth/cet", Value.market tradeMarket) ], 100⟩

/-- The buy order of account `B` (byte 66): price 100000000 at precision 8,
quantity 10, on `eth/cet`. -/
def buyMsg : MsgCreateOrder := ⟨[66], 7, ascii "eth/cet", 2, 8, 100000000, 10, 1, 3⟩

/-- The same order as a sell order (side 2) of account `B`. -/
def sellMsg : MsgCreateOrder := ⟨[66], 8, ascii "eth/cet", 2, 8, 100000000, 10, 2, 3⟩

/-- The same sell order sent by account `A`, who holds the 10 `eth`. -/
def issuerSellMsg : MsgCreateOrder := ⟨[65], 1, ascii "eth/cet", 2, 8, 100000000, 10, 2, 3⟩

/-- The buy order of account `B` on the upper-case symbol `ETH/CET`. -/
def upperBuyMsg : MsgCreateOrder := ⟨[66], 7, ascii "ETH/CET", 2, 8, 100000000, 10, 1, 3⟩

/-! ## Basic facts -/

/-- An error result is never OK. -/
theorem Error.Result_IsOK (e : Error) : e.Result.IsOK = false := by
  simp [Error.Result, Result.IsOK]

/-- A failing `Add` leaves the context as it was. -/
theorem OrderKeeper.Add_error (pkg : Package) (ork : OrderKeeper) (ctx ctx1 : Context)
    (order : Order) (err : Error) (h : ork.Add pkg ctx order = some (some err, ctx1)) :
    ctx1 = ctx := by
  unfold OrderKeeper.Add at h
  cases hs : ctx.KVStore with
  | none => simp [hs] at h
  | some store =>
    simp only [hs] at h
    split at h
    · simp at h; exact h.2.symm
    · simp at h

/-- A failing `Remove` leaves the context as it was. -/
theorem OrderKeeper.Remove_error (pkg : Package) (ork : OrderKeeper) (ctx ctx1 : Context)
    (order : Order) (err : Error) (h : ork.Remove pkg ctx order = some (some err, ctx1)) :
    ctx1 = ctx := by
  unfold OrderKeeper.Remove at h
  cases hs : ctx.KVStore with
  | none => simp [hs] at h
  | some store =>
    simp only [hs] at h
    split at h
    · simp at h; exact h.2.symm
    · simp at h

/-- A create-market message that is not accepted leaves the context as it was. -/
theorem handleMsgCreateMarketInfo_failure (pkg : Package) (k : Keeper) (ctx ctx1 : Context)
    (msg : MsgCreateMarketInfo) (r : Result)
    (h : handleMsgCreateMarketInfo pkg ctx msg k = some (r, ctx1)) (hr : r.IsOK = false) :
    ctx1 = ctx := by
  unfold handleMsgCreateMarketInfo at h
  cases hc : checkMsgCreateMarketInfo pkg ctx msg k with
  | none => simp [hc] at h
  | some ret =>
    simp only [hc] at h
    split at h
    · simp at h; exact h.2.symm
    · cases hs : ctx.KVStore with
      | none => simp [hs] at h
      | some store =>
        simp only [hs] at h
        simp at h
        rw [← h.1] at hr
        simp [Result.okTags, Result.IsOK] at hr

/-- A create-order message that is not accepted leaves the context as it was. -/
theorem handleMsgCreateOrder_failure (pkg : Package) (k : Keeper) (ctx ctx1 : Context)
    (msg : MsgCreateOrder) (r : Result)
    (h : handleMsgCreateOrder pkg ctx msg k = some (r, ctx1)) (hr : r.IsOK = false) :
    ctx1 = ctx := by
  unfold handleMsgCreateOrder at h
  cases hs : ctx.KVStore with
  | none => simp [hs] at h; exact h.2.symm
  | some store =>
    simp only [hs] at h
    cases hc : checkMsgCreateOrder pkg ctx store msg k with
    | none => simp [hc] at h
    | some ret =>
      simp only [hc] at h
      split at h
      · simp at h; exact h.2.symm
      · split at h
        · simp at h
        · rename_i err ctx2 hadd
          simp at h
          rw [← h.2]
          exact OrderKeeper.Add_error pkg _ ctx ctx2 _ err hadd
        · simp at h
          rw [← h.1] at hr
          simp [Result.okTags, Result.IsOK] at hr

/-- A cancel-order message that is not accepted leaves the context as it was. -/
theorem handleMsgCancelOrder_failure (pkg : Package) (k : Keeper) (ctx ctx1 : Context)
    (msg : MsgCancelOrder) (r : Result)
    (h : handleMsgCancelOrder pkg ctx msg k = some (r, ctx1)) (hr : r.IsOK = false) :
    ctx1 = ctx := by
  unfold handleMsgCancelOrder at h
  split at h
  · simp at h; exact h.2.symm
  · split at h
    · simp at h
    · simp at h; exact h.2.symm
    · split at h
      · simp at h; exact h.2.symm
      · simp only at h
        split at h
        · simp at h
        · rename_i err ctx2 hrem
          simp at h
          rw [← h.2]
          exact OrderKeeper.Remove_error pkg _ ctx ctx2 _ err hrem
        · simp at h
          rw [← h.1] at hr
          simp [Result.okEmpty, Result.IsOK] at hr

/-- A cancel-market message that is not accepted leaves the context as it was. -/
theorem handleMsgCancelMarket_failure (pkg : Package) (k : Keeper) (ctx ctx1 : Context)
    (msg : MsgCancelMarket) (r : Result)
    (h : handleMsgCancelMarket pkg ctx msg k = some (r, ctx1)) (hr : r.IsOK = false) :
    ctx1 = ctx := by
  unfold handleMsgCancelMarket at h
  split at h
  · simp at h
  · simp at h; exact h.2.symm
  · split at h
    · simp at h
    · simp at h
      rw [← h.1] at hr
      simp [Result.okEmpty, Result.IsOK] at hr

/-- C1. Per-message atomicity: whenever the handler returned by `NewHandler`
yields a result that is not OK, for any of the four message kinds (and for an
unrecognised message), the key-value store after the call is the store before
the call: no market record, order record or delist request was written or
deleted. -/
theorem NewHandler_failure_store_untouched (pkg : Package) (k : Keeper) (ctx ctx1 : Context)
    (msg : Msg) (r : Result) (h : NewHandler pkg k ctx msg = some (r, ctx1))
    (hr : r.IsOK = false) : ctx1.KVStore = ctx.KVStore := by
  cases msg with
  | createMarketInfo m => rw [handleMsgCreateMarketInfo_failure pkg k ctx ctx1 m r h hr]
  | createOrder m => rw [handleMsgCreateOrder_failure pkg k ctx ctx1 m r h hr]
  | cancelOrder m => rw [handleMsgCancelOrder_failure pkg k ctx ctx1 m r h hr]
  | cancelMarket m => rw [handleMsgCancelMarket_failure pkg k ctx ctx1 m r h hr]
  | other t => simp [NewHandler] at h; rw [← h.2]

/-- Witness of C1: a second creation of `ETH/CET` is refused and the store is
the one before. -/
theorem NewHandler_failure_store_untouched_witness :
    NewHandler demoPackage demoKeeper marketCtx
        (Msg.createMarketInfo ⟨ascii "ETH", ascii "CET", [65], 8⟩)
      = some (ErrInvalidSymbol.Result, marketCtx) ∧
    ErrInvalidSymbol.Result.IsOK = false ∧
    marketCtx.KVStore = marketCtx.KVStore :=
  ⟨by decide, by decide,
    NewHandler_failure_store_untouched demoPackage demoKeeper marketCtx marketCtx
      (Msg.createMarketInfo ⟨ascii "ETH", ascii "CET", [65], 8⟩) ErrInvalidSymbol.Result
      (by decide) (by decide)⟩

/-! ## The decimal arithmetic of `calculateAmount` -/

/-- Rounding a non-negative scaled integer lands within half a unit, on the
even neighbour in a tie, and never below zero. -/
theorem chopNonneg_near (d : Int) (hd : 0 ≤ d) :
    0 ≤ chopNonneg d ∧
    2 * (chopNonneg d * 10 ^ 18 - d) ≤ 10 ^ 18 ∧
    -(10 ^ 18) ≤ 2 * (chopNonneg d * 10 ^ 18 - d) ∧
    (2 * (chopNonneg d * 10 ^ 18 - d) = 10 ^ 18 ∨ 2 * (chopNonneg d * 10 ^ 18 - d) = -(10 ^ 18) →
      chopNonneg d % 2 = 0) := by
  unfold chopNonneg
  have h18 : (0 : Int) ≤ precisionReuse := by decide
  rw [Int.tdiv_eq_ediv hd h18, Int.tmod_eq_emod hd h18]
  have hp : precisionReuse = 1000000000000000000 := by decide
  have hf : fivePrecision = 500000000000000000 := by decide
  rw [hp, hf]
  norm_num only
  split_ifs <;> omega

/-- Rounding a scaled integer lands within half a unit, on the even neighbour
in a tie. -/
theorem chopPrecisionAndRound_near (d : Int) :
    2 * (chopPrecisionAndRound d * 10 ^ 18 - d) ≤ 10 ^ 18 ∧
    -(10 ^ 18) ≤ 2 * (chopPrecisionAndRound d * 10 ^ 18 - d) ∧
    (2 * (chopPrecisionAndRound d * 10 ^ 18 - d) = 10 ^ 18 ∨
        2 * (chopPrecisionAndRound d * 10 ^ 18 - d) = -(10 ^ 18) →
      chopPrecisionAndRound d % 2 = 0) := by
  unfold chopPrecisionAndRound
  split_ifs with h
  · have := chopNonneg_near (-d) (by omega)
    norm_num only at this ⊢
    omega
  · have := chopNonneg_near d (by omega)
    norm_num only at this ⊢
    omega

/-- Rounding a whole number of units is exact. -/
theorem chopPrecisionAndRound_mul (a : Int) :
    chopPrecisionAndRound (a * 10 ^ 18) = a := by
  have := chopPrecisionAndRound_near (a * 10 ^ 18)
  norm_num only at this ⊢
  omega

/-- The magnitude of an `int64` is at most `2^63`. -/
theorem natAbs_le_of_int64 (x : Int) (h1 : -(2 ^ 63) ≤ x) (h2 : x < 2 ^ 63) :
    x.natAbs ≤ 2 ^ 63 := by
  omega

/-- Up to precision 18 the conversion of the power of ten is exact. -/
theorem int64OfPow10_of_le (p : Nat) (hp : p ≤ 18) : int64OfPow10 p = 10 ^ p := by
  unfold int64OfPow10
  have h1 : (10 : Int) ^ p ≤ 10 ^ 18 := pow_le_pow_right₀ (by norm_num) hp
  have h2 : (10 : Int) ^ 18 < 2 ^ 63 := by norm_num
  rw [if_pos (lt_of_le_of_lt h1 h2)]

/-- The divisor of `calculateAmount` is never zero. -/
theorem int64OfPow10_ne_zero (p : Nat) : int64OfPow10 p ≠ 0 := by
  unfold int64OfPow10
  split_ifs
  · exact pow_ne_zero _ (by norm_num)
  · norm_num

/-- Up to precision 18 and on `int64` arguments `calculateAmount` returns, and
returns the exact decimal `price * quantity / 10^pricePrecision`: its scaled
integer is `price * quantity * 10^(18 - pricePrecision)`. -/
theorem calculateAmount_exact (price quantity : Int) (p : Nat) (hp : p ≤ 18)
    (hp1 : -(2 ^ 63) ≤ price) (hp2 : price < 2 ^ 63)
    (hq1 : -(2 ^ 63) ≤ quantity) (hq2 : quantity < 2 ^ 63) :
    calculateAmount price quantity p = some ⟨price * quantity * 10 ^ (18 - p)⟩ := by
  have hK : (10 : Int) ^ (18 - p) * 10 ^ p = 10 ^ 18 := by
    rw [← pow_add]; congr 1; omega
  have hKn : (10 : Nat) ^ (18 - p) ≤ 10 ^ 18 := Nat.pow_le_pow_right (by norm_num) (by omega)
  have hpn := natAbs_le_of_int64 price hp1 hp2
  have hqn := natAbs_le_of_int64 quantity hq1 hq2
  have hpr : precisionReuse = 10 ^ 18 := rfl
  have hne : (10 : Int) ^ p * 10 ^ 18 ≠ 0 := by positivity
  unfold calculateAmount
  have hquo : (NewDec price).Quo (NewDec (int64OfPow10 p)) = some ⟨price * 10 ^ (18 - p)⟩ := by
    unfold Dec.Quo NewDec
    rw [int64OfPow10_of_le p hp, hpr]
    simp only
    rw [if_neg hne]
    have hnum : price * 10 ^ 18 * 10 ^ 18 * 10 ^ 18
        = (price * 10 ^ (18 - p) * 10 ^ 18) * ((10 : Int) ^ p * 10 ^ 18) := by
      rw [← hK]; ring
    rw [hnum, Int.mul_tdiv_cancel _ hne, chopPrecisionAndRound_mul]
    have hov : decOverflow (price * 10 ^ (18 - p)) = false := by
      unfold decOverflow
      rw [decide_eq_false_iff_not, not_le, Int.natAbs_mul, Int.natAbs_pow]
      calc price.natAbs * (10 : Int).natAbs ^ (18 - p)
          ≤ 2 ^ 63 * 10 ^ 18 := Nat.mul_le_mul hpn hKn
        _ < 2 ^ 315 := by norm_num
    rw [hov]; rfl
  rw [hquo]
  simp only
  unfold Dec.Mul NewDec
  rw [hpr]
  simp only
  have hnum : price * 10 ^ (18 - p) * (quantity * 10 ^ 18)
      = (price * quantity * 10 ^ (18 - p)) * 10 ^ 18 := by ring
  rw [hnum, chopPrecisionAndRound_mul]
  have hov : decOverflow (price * quantity * 10 ^ (18 - p)) = false := by
    unfold decOverflow
    rw [decide_eq_false_iff_not, not_le, Int.natAbs_mul, Int.natAbs_mul, Int.natAbs_pow]
    calc price.natAbs * quantity.natAbs * (10 : Int).natAbs ^ (18 - p)
        ≤ 2 ^ 63 * 2 ^ 63 * 10 ^ 18 := Nat.mul_le_mul (Nat.mul_le_mul hpn hqn) hKn
      _ < 2 ^ 315 := by norm_num
  rw [hov]; rfl

/-- Up to precision 18 and on `int64` arguments the freeze amount is computed
without a panic: it is the rounding of the exact decimal. -/
theorem freezeAmount_of_le (price quantity : Int) (p : Nat) (hp : p ≤ 18)
    (hp1 : -(2 ^ 63) ≤ price) (hp2 : price < 2 ^ 63)
    (hq1 : -(2 ^ 63) ≤ quantity) (hq2 : quantity < 2 ^ 63) :
    freezeAmount price quantity p
      = some (chopPrecisionAndRound (price * quantity * 10 ^ (18 - p))) := by
  have hexact := calculateAmount_exact price quantity p hp hp1 hp2 hq1 hq2
  unfold freezeAmount
  rw [hexact]
  simp only [Dec.RoundInt]
  have hnear := chopPrecisionAndRound_near (price * quantity * 10 ^ (18 - p))
  have hK1 : (0 : Int) < 10 ^ (18 - p) := by positivity
  have hK2 : (10 : Int) ^ (18 - p) ≤ 10 ^ 18 := pow_le_pow_right₀ (by norm_num) (by omega)
  have hm : |price * quantity * 10 ^ (18 - p)| ≤ 2 ^ 63 * 2 ^ 63 * 10 ^ 18 := by
    rw [abs_mul, abs_mul, abs_of_pos hK1]
    have h1 : |price| ≤ 2 ^ 63 := abs_le.mpr ⟨by linarith, by linarith⟩
    have h2 : |quantity| ≤ 2 ^ 63 := abs_le.mpr ⟨by linarith, by linarith⟩
    have h3 : |price| * |quantity| ≤ 2 ^ 63 * 2 ^ 63 :=
      mul_le_mul h1 h2 (abs_nonneg _) (by norm_num)
    exact mul_le_mul h3 hK2 (le_of_lt hK1) (by norm_num)
  rw [abs_le] at hm
  generalize price * quantity * 10 ^ (18 - p) = M at hnear hm
  generalize chopPrecisionAndRound M = c at hnear
  norm_num only at hnear hm ⊢
  rw [if_neg (by omega)]

/-- On the upper-case symbol `ETH/CET` no order is accepted: the buy order
reaches `sdk.NewCoin` with the denomination `CET`, which panics. -/
theorem handleMsgCreateOrder_upper_case :
    handleMsgCreateOrder demoPackage marketCtx upperBuyMsg demoKeeper = none := by
  decide

/-- C2. On the buy order of the scenario, on the symbol `eth/cet` (price
100000000, quantity 10, precision 8, sent by `B`, who holds 10 `cet`, `cet` not
frozen), the handler accepts the message, the obligation it checked is 10, and
the order it persists has `LeftStock = 0` and `Freeze = 0`, not the quantity 10
and the obligation 10. -/
theorem handleMsgCreateOrder_persists_zero_freeze :
    freezeAmount buyMsg.Price buyMsg.Quantity buyMsg.PricePrecision = some 10 ∧
    ((handleMsgCreateOrder demoPackage tradeCtx buyMsg ledgerKeeper).map
        (fun out => out.1.IsOK)) = some true ∧
    ((handleMsgCreateOrder demoPackage tradeCtx buyMsg ledgerKeeper).bind
        (fun out => QueryOrder demoPackage out.2 [66, 7])) =
      some (some
        { Sender := [66], Sequence := 7, Symbol := ascii "eth/cet", OrderType := 2
          Price := NewDec 100000000, Quantity := 10, Side := 1, TimeInForce := 3
          Height := 100, LeftStock := 0, Freeze := 0, DealMoney := 0, DealStock := 0 }) := by
  refine ⟨by decide, by decide, by decide⟩

/-- C3, as stated, fails above precision 18: at price `10^18`, quantity 100 and
precision 19 the exact quotient `price * quantity / 10^19` is 10, while the
code, whose `int64` power of ten is out of range, yields -11. -/
theorem freezeAmount_precision_19 :
    ((10 : Int) ^ 18 * 100 = 10 * 10 ^ 19) ∧
    freezeAmount (10 ^ 18) 100 19 = some (-11) := by
  refine ⟨by norm_num, by decide⟩

/-- The counterexample of C3 does not hinge on what the out-of-range conversion
yields: whichever `int64` stands for `int64(math.Pow10(19))`, the computation
at price `10^18` and quantity 100 does not give the exact quotient 10. -/
theorem precision_19_any_conversion (v : Int) (hv1 : -(2 ^ 63) ≤ v) (hv2 : v < 2 ^ 63) :
    (match (NewDec (10 ^ 18)).Quo (NewDec v) with
      | none => none
      | some actualPrice =>
        match actualPrice.Mul (NewDec 100) with
        | none => none
        | some d => d.RoundInt) ≠ some 10 := by
  have hpr : precisionReuse = 10 ^ 18 := rfl
  unfold Dec.Quo NewDec
  rw [hpr]
  simp only
  by_cases hv0 : v = 0
  · simp [hv0]
  have hd2 : v * 10 ^ 18 ≠ 0 := mul_ne_zero hv0 (by norm_num)
  rw [if_neg hd2]
  -- bounds on the truncated quotient
  obtain ⟨q, hq⟩ : ∃ q, q = Int.tdiv ((10 : Int) ^ 18 * 10 ^ 18 * 10 ^ 18 * 10 ^ 18)
      (v * 10 ^ 18) := ⟨_, rfl⟩
  rw [← hq]
  have hqb : q ≤ 0 ∨ 108000000000000000000000000000000000 ≤ q := by
    rcases lt_or_gt_of_ne hv0 with hneg | hpos
    · left
      rw [hq, show v * 10 ^ 18 = -((-v) * 10 ^ 18) by ring, Int.tdiv_neg]
      have : 0 ≤ Int.tdiv ((10 : Int) ^ 18 * 10 ^ 18 * 10 ^ 18 * 10 ^ 18) (-v * 10 ^ 18) :=
        Int.tdiv_nonneg (by norm_num) (mul_nonneg (by omega) (by norm_num))
      omega
    · right
      have hvb : v * 10 ^ 18 ≤ 2 ^ 63 * 10 ^ 18 := by
        have : v ≤ 2 ^ 63 := le_of_lt hv2
        exact mul_le_mul_of_nonneg_right this (by norm_num)
      have hvp : 0 < v * 10 ^ 18 := by positivity
      rw [hq, Int.tdiv_eq_ediv (by norm_num) (le_of_lt hvp)]
      rw [Int.le_ediv_iff_mul_le hvp]
      calc (108000000000000000000000000000000000 : Int) * (v * 10 ^ 18)
          ≤ 108000000000000000000000000000000000 * (2 ^ 63 * 10 ^ 18) :=
            mul_le_mul_of_nonneg_left hvb (by norm_num)
        _ ≤ 10 ^ 18 * 10 ^ 18 * 10 ^ 18 * 10 ^ 18 := by norm_num
  have hn1 := chopPrecisionAndRound_near q
  generalize chopPrecisionAndRound q = c1 at hn1 ⊢
  have hc1 : c1 ≤ 0 ∨ 108000000000000000 ≤ c1 := by
    norm_num only at hn1
    omega
  split
  · simp
  · rename_i a ha
    split at ha
    · simp at ha
    · cases ha
      unfold Dec.Mul
      simp only
      rw [show c1 * (100 * 10 ^ 18) = c1 * 100 * 10 ^ 18 by ring, chopPrecisionAndRound_mul]
      split
      · simp
      · rename_i d hd
        split at hd
        · simp at hd
        · cases hd
          simp only [Dec.RoundInt]
          have hn3 := chopPrecisionAndRound_near (c1 * 100)
          generalize chopPrecisionAndRound (c1 * 100) = c3 at hn3 ⊢
          split
          · simp
          · intro h
            have h10 : c3 = 10 := by simpa using h
            norm_num only at hn3
            omega

/-- C3 (amended). For `int64` price and quantity and a price precision of at
most 18 (`MaxTokenPricePrecision`), `calculateAmount` returns the exact decimal
`price * quantity / 10^pricePrecision` (no precision is lost before the final
rounding), and the freeze amount `calculateAmount(..).RoundInt()` is a nearest
integer to `price * quantity / 10^pricePrecision`, the even one in a tie. -/
theorem freezeAmount_nearest (price quantity : Int) (p : Nat) (hp : p ≤ 18)
    (hp1 : -(2 ^ 63) ≤ price) (hp2 : price < 2 ^ 63)
    (hq1 : -(2 ^ 63) ≤ quantity) (hq2 : quantity < 2 ^ 63) :
    calculateAmount price quantity p = some ⟨price * quantity * 10 ^ (18 - p)⟩ ∧
    ∃ r : Int, freezeAmount price quantity p = some r ∧
      2 * |r * 10 ^ p - price * quantity| ≤ 10 ^ p ∧
      (2 * |r * 10 ^ p - price * quantity| = 10 ^ p → r % 2 = 0) := by
  have hexact := calculateAmount_exact price quantity p hp hp1 hp2 hq1 hq2
  refine ⟨hexact, chopPrecisionAndRound (price * quantity * 10 ^ (18 - p)),
    freezeAmount_of_le price quantity p hp hp1 hp2 hq1 hq2, ?_, ?_⟩
  all_goals
    have hK : (10 : Int) ^ (18 - p) * 10 ^ p = 10 ^ 18 := by
      rw [← pow_add]; congr 1; omega
    have hK1 : (0 : Int) < 10 ^ (18 - p) := by positivity
    have hnear := chopPrecisionAndRound_near (price * quantity * 10 ^ (18 - p))
    generalize chopPrecisionAndRound (price * quantity * 10 ^ (18 - p)) = c at hnear ⊢
    have e : 2 * (c * 10 ^ 18 - price * quantity * 10 ^ (18 - p))
        = 10 ^ (18 - p) * (2 * (c * 10 ^ p - price * quantity)) := by
      rw [← hK]; ring
    rw [e, ← hK] at hnear
  · obtain ⟨h1, h2, _⟩ := hnear
    have a1 : 2 * (c * 10 ^ p - price * quantity) ≤ 10 ^ p := le_of_mul_le_mul_left h1 hK1
    have a2 : -(10 ^ p) ≤ 2 * (c * 10 ^ p - price * quantity) := by
      rw [← mul_neg] at h2
      exact le_of_mul_le_mul_left h2 hK1
    have := abs_le.mpr ⟨a2, a1⟩
    rw [abs_mul] at this
    simpa using this
  · intro htie
    apply hnear.2.2
    have h2 : |2 * (c * 10 ^ p - price * quantity)| = 10 ^ p := by
      rw [abs_mul]; simpa using htie
    rcases abs_eq (by positivity : (0 : Int) ≤ 10 ^ p) |>.mp h2 with h | h
    · left; rw [h]
    · right; rw [h]; ring

/-- Witness of C3 (amended): price 100000000, quantity 10, precision 8. -/
theorem freezeAmount_nearest_witness :
    calculateAmount 100000000 10 8 = some ⟨100000000 * 10 * 10 ^ (18 - 8)⟩ ∧
    ∃ r : Int, freezeAmount 100000000 10 8 = some r ∧
      2 * |r * 10 ^ 8 - 100000000 * 10| ≤ 10 ^ 8 ∧
      (2 * |r * 10 ^ 8 - 100000000 * 10| = 10 ^ 8 → r % 2 = 0) :=
  freezeAmount_nearest 100000000 10 8 (by decide) (by decide) (by decide) (by decide)
    (by decide)

/-! ## Market creation -/

/-- A key reads back the value just written under it. -/
theorem Store.Get_Set_self (s : Store) (key : Bytes) (v : Value) :
    (s.Set key v).Get key = some v := by
  simp [Store.Set, Store.Get]

/-- What an accepted create-market message does: the check returned OK, the
store handle exists, and the context after the call is the one before with the
market record written under its key. -/
theorem handleMsgCreateMarketInfo_ok (pkg : Package) (k : Keeper) (ctx ctx1 : Context)
    (msg : MsgCreateMarketInfo) (r : Result)
    (h : handleMsgCreateMarketInfo pkg ctx msg k = some (r, ctx1)) (hr : r.IsOK = true) :
    ∃ store, ctx.KVStore = some store ∧
      ctx1 = ctx.withStore
        (store.Set (marketStoreKey pkg.MarketIdentifierPrefix
            [msg.Stock ++ SymbolSeparator ++ msg.Money])
          (Value.market ⟨msg.Stock, msg.Money, msg.Creator, msg.PricePrecision, ZeroDec⟩)) := by
  unfold handleMsgCreateMarketInfo at h
  cases hc : checkMsgCreateMarketInfo pkg ctx msg k with
  | none => simp [hc] at h
  | some ret =>
    simp only [hc] at h
    split at h
    · rename_i hnot
      cases h
      rw [hr] at hnot
      exact absurd hnot (by decide)
    · cases hs : ctx.KVStore with
      | none => simp [hs] at h
      | some store =>
        simp only [hs] at h
        cases h
        exact ⟨store, rfl, rfl⟩

/-- A create-market message for a pair whose key is in use is refused with the
duplicate-symbol error, whatever the collaborators answer. -/
theorem handleMsgCreateMarketInfo_duplicate (pkg : Package) (k : Keeper) (ctx : Context)
    (store : Store) (msg : MsgCreateMarketInfo) (v : Value) (hs : ctx.KVStore = some store)
    (hg : store.Get (marketStoreKey pkg.MarketIdentifierPrefix
        [msg.Stock ++ SymbolSeparator ++ msg.Money]) = some v) :
    handleMsgCreateMarketInfo pkg ctx msg k = some (ErrInvalidSymbol.Result, ctx) := by
  have hc : checkMsgCreateMarketInfo pkg ctx msg k = some ErrInvalidSymbol.Result := by
    unfold checkMsgCreateMarketInfo
    simp only [hs, hg, Option.isSome_some, ↓reduceIte]
  unfold handleMsgCreateMarketInfo
  rw [hc]
  rfl

/-- C4. Market uniqueness: when a create-market message for a pair is accepted,
the store after it holds, under the key `prefix(Market) || Stock || "/" || Money`,
the market record with `LastExecutedPrice = 0`; and a second create-market
message for the same pair applied to the resulting state (at any height, with
any collaborators) fails with the duplicate-symbol error (`ErrInvalidSymbol`),
whatever its creator and precision, and leaves the state, hence the stored
record, unchanged. -/
theorem create_market_twice (pkg : Package) (k : Keeper) (ctx ctx1 : Context)
    (msg : MsgCreateMarketInfo) (r : Result)
    (h : handleMsgCreateMarketInfo pkg ctx msg k = some (r, ctx1)) (hr : r.IsOK = true) :
    (ctx1.KVStore.bind fun store =>
        store.Get (pkg.MarketIdentifierPrefix ++ msg.Stock ++ SymbolSeparator ++ msg.Money)) =
      some (Value.market ⟨msg.Stock, msg.Money, msg.Creator, msg.PricePrecision, ZeroDec⟩) ∧
    ∀ (k2 : Keeper) (height : Int) (creator : Bytes) (precision : Nat),
      handleMsgCreateMarketInfo pkg ⟨ctx1.store, height⟩
          ⟨msg.Stock, msg.Money, creator, precision⟩ k2
        = some (ErrInvalidSymbol.Result, ⟨ctx1.store, height⟩) := by
  obtain ⟨store, hs, hctx⟩ := handleMsgCreateMarketInfo_ok pkg k ctx ctx1 msg r h hr
  have hkey : pkg.MarketIdentifierPrefix ++ msg.Stock ++ SymbolSeparator ++ msg.Money
      = marketStoreKey pkg.MarketIdentifierPrefix [msg.Stock ++ SymbolSeparator ++ msg.Money] := by
    simp [marketStoreKey]
  subst hctx
  constructor
  · rw [hkey]
    simp [Context.KVStore, Context.withStore, Store.Get_Set_self]
  · intro k2 height creator precision
    exact handleMsgCreateMarketInfo_duplicate pkg k2 _ _ _ _ rfl
      (Store.Get_Set_self store _ _)

/-- Witness of C4: account `A` creates `ETH/CET` on the empty store. -/
theorem create_market_twice_witness :
    handleMsgCreateMarketInfo demoPackage emptyCtx ⟨ascii "ETH", ascii "CET", [65], 8⟩ demoKeeper
      = some (Result.okTags (Tags.ofMarketInfo ethCet), marketCtx) ∧
    (marketCtx.KVStore.bind fun store =>
        store.Get (demoPackage.MarketIdentifierPrefix ++ ascii "ETH" ++ SymbolSeparator
          ++ ascii "CET")) = some (Value.market ethCet) ∧
    ∀ (k2 : Keeper) (height : Int) (creator : Bytes) (precision : Nat),
      handleMsgCreateMarketInfo demoPackage ⟨marketCtx.store, height⟩
          ⟨ascii "ETH", ascii "CET", creator, precision⟩ k2
        = some (ErrInvalidSymbol.Result, ⟨marketCtx.store, height⟩) :=
  ⟨by decide,
    create_market_twice demoPackage demoKeeper emptyCtx marketCtx
      ⟨ascii "ETH", ascii "CET", [65], 8⟩ (Result.okTags (Tags.ofMarketInfo ethCet))
      (by decide) (by decide)⟩

/-- C5, as stated, fails: a create-market message with precision 7 for the pair
`ETH/CET`, which is already in use, is refused with the duplicate-symbol error,
not with the invalid-price-precision error. -/
theorem create_market_precision_7_duplicate :
    handleMsgCreateMarketInfo demoPackage marketCtx ⟨ascii "ETH", ascii "CET", [65], 7⟩ demoKeeper
      = some (ErrInvalidSymbol.Result, marketCtx) ∧
    ErrInvalidSymbol.Result ≠ ErrInvalidPricePrecision.Result := by
  refine ⟨by decide, by decide⟩

/-- C5 (amended). Precision bound: on every store state, a create-market
message whose precision is below 8 or above 18 always fails and leaves the
store untouched, and it fails with the invalid-price-precision error whenever
the three checks made before the precision check pass (pair unused, both
tokens exist, creator is issuer of one); a message with precision exactly 8 or
exactly 18 that meets the other creation preconditions (pair unused, both
tokens exist, creator is issuer of one, creator holds the fee) succeeds and
writes the market record. -/
theorem create_market_precision_bound (pkg : Package) (k : Keeper) (store : Store)
    (height : Int) (msg : MsgCreateMarketInfo) :
    (msg.PricePrecision < 8 ∨ 18 < msg.PricePrecision →
      (∃ r, handleMsgCreateMarketInfo pkg ⟨some store, height⟩ msg k
            = some (r, ⟨some store, height⟩) ∧ r.IsOK = false) ∧
      (store.Get (pkg.MarketIdentifierPrefix ++ msg.Stock ++ SymbolSeparator ++ msg.Money) = none →
        k.axk.IsTokenExists ⟨some store, height⟩ msg.Money = true →
        k.axk.IsTokenExists ⟨some store, height⟩ msg.Stock = true →
        (k.axk.IsTokenIssuer ⟨some store, height⟩ msg.Stock msg.Creator = true ∨
          k.axk.IsTokenIssuer ⟨some store, height⟩ msg.Money msg.Creator = true) →
        handleMsgCreateMarketInfo pkg ⟨some store, height⟩ msg k
          = some (ErrInvalidPricePrecision.Result, ⟨some store, height⟩))) ∧
    (msg.PricePrecision = 8 ∨ msg.PricePrecision = 18 →
      store.Get (pkg.MarketIdentifierPrefix ++ msg.Stock ++ SymbolSeparator ++ msg.Money) = none →
      k.axk.IsTokenExists ⟨some store, height⟩ msg.Money = true →
      k.axk.IsTokenExists ⟨some store, height⟩ msg.Stock = true →
      (k.axk.IsTokenIssuer ⟨some store, height⟩ msg.Stock msg.Creator = true ∨
        k.axk.IsTokenIssuer ⟨some store, height⟩ msg.Money msg.Creator = true) →
      k.bnk.HasCoins ⟨some store, height⟩ msg.Creator [pkg.CreateMarketSpendCet] = true →
      handleMsgCreateMarketInfo pkg ⟨some store, height⟩ msg k
        = some (Result.okTags
              (Tags.ofMarketInfo ⟨msg.Stock, msg.Money, msg.Creator, msg.PricePrecision, ZeroDec⟩),
            ⟨some (store.Set
                (pkg.MarketIdentifierPrefix ++ msg.Stock ++ SymbolSeparator ++ msg.Money)
                (Value.market ⟨msg.Stock, msg.Money, msg.Creator, msg.PricePrecision, ZeroDec⟩)),
              height⟩)) := by
  have hkey : marketStoreKey pkg.MarketIdentifierPrefix [msg.Stock ++ SymbolSeparator ++ msg.Money]
      = pkg.MarketIdentifierPrefix ++ msg.Stock ++ SymbolSeparator ++ msg.Money := by
    simp [marketStoreKey]
  refine ⟨fun hprec => ⟨?_, ?_⟩, ?_⟩
  · -- every branch of the check that such a message can reach is an error
    have hc : ∃ e : Error, checkMsgCreateMarketInfo pkg ⟨some store, height⟩ msg k
        = some e.Result := by
      unfold checkMsgCreateMarketInfo
      simp only [Context.KVStore]
      split_ifs with h1 h2 h3 h4 h5
      · exact ⟨_, rfl⟩
      · exact ⟨_, rfl⟩
      · exact ⟨_, rfl⟩
      · exact ⟨_, rfl⟩
      · exact ⟨_, rfl⟩
      · exfalso
        apply h4
        simp only [MinTokenPricePrecision, MaxTokenPricePrecision]
        omega
    obtain ⟨e, he⟩ := hc
    refine ⟨e.Result, ?_, Error.Result_IsOK e⟩
    unfold handleMsgCreateMarketInfo
    rw [he]
    simp [Error.Result_IsOK]
  · intro hfree hm hs hiss
    have hc : checkMsgCreateMarketInfo pkg ⟨some store, height⟩ msg k
        = some ErrInvalidPricePrecision.Result := by
      unfold checkMsgCreateMarketInfo
      simp only [Context.KVStore, hkey, hfree, hm, hs]
      have h4 : msg.PricePrecision < MinTokenPricePrecision
          ∨ msg.PricePrecision > MaxTokenPricePrecision := by
        simp only [MinTokenPricePrecision, MaxTokenPricePrecision]
        omega
      rcases hiss with hi | hi <;> simp [hi, h4]
    unfold handleMsgCreateMarketInfo
    rw [hc]
    rfl
  · intro hprec hfree hm hs hiss hfee
    have hc : checkMsgCreateMarketInfo pkg ⟨some store, height⟩ msg k = some Result.okEmpty := by
      unfold checkMsgCreateMarketInfo
      simp only [Context.KVStore, hkey, hfree, hm, hs, hfee]
      have h4 : ¬(msg.PricePrecision < MinTokenPricePrecision
          ∨ msg.PricePrecision > MaxTokenPricePrecision) := by
        simp only [MinTokenPricePrecision, MaxTokenPricePrecision]
        omega
      rcases hiss with hi | hi <;> simp [hi, h4]
    unfold handleMsgCreateMarketInfo
    rw [hc]
    simp only [hkey]
    rfl

/-- Witness of C5 (amended): on the empty store, precision 7 is refused with
the invalid-price-precision error and precision 8 is accepted. -/
theorem create_market_precision_bound_witness :
    handleMsgCreateMarketInfo demoPackage ⟨some [], 100⟩ ⟨ascii "ETH", ascii "CET", [65], 7⟩
        demoKeeper
      = some (ErrInvalidPricePrecision.Result, ⟨some [], 100⟩) ∧
    handleMsgCreateMarketInfo demoPackage ⟨some [], 100⟩ ⟨ascii "ETH", ascii "CET", [65], 8⟩
        demoKeeper
      = some (Result.okTags (Tags.ofMarketInfo ⟨ascii "ETH", ascii "CET", [65], 8, ZeroDec⟩),
          ⟨some (Store.Set []
              (demoPackage.MarketIdentifierPrefix ++ ascii "ETH" ++ SymbolSeparator ++ ascii "CET")
              (Value.market ⟨ascii "ETH", ascii "CET", [65], 8, ZeroDec⟩)), 100⟩) :=
  ⟨((create_market_precision_bound demoPackage demoKeeper [] 100
        ⟨ascii "ETH", ascii "CET", [65], 7⟩).1 (by decide)).2
      (by decide) (by decide) (by decide) (by decide),
    (create_market_precision_bound demoPackage demoKeeper [] 100
        ⟨ascii "ETH", ascii "CET", [65], 8⟩).2 (by decide)
      (by decide) (by decide) (by decide) (by decide) (by decide)⟩

/-! ## Cancelling an order, cancelling a market -/

/-- Inside `int64` the wrap is the identity. -/
theorem wrapInt64_of_range (x : Int) (h1 : -(2 ^ 63) ≤ x) (h2 : x < 2 ^ 63) :
    wrapInt64 x = x := by
  unfold wrapInt64
  omega

/-- C6, as stated, fails on a message that does not pass its stateless
validation: a cancel-order message without sender identity that names the
stored order of `B` is refused by `ValidateBasic`, the first step of the
handler, with the invalid-address error, not with the sender-mismatch error,
although the sender of the order differs from the (empty) sender of the
message. -/
theorem cancel_order_invalid_message :
    QueryOrder strictPackage orderCtx [66, 7]
      = some (some ⟨[66], 7, ascii "eth/cet", 2, NewDec 100000000, 10, 1, 3, 100, 0, 0, 0, 0⟩) ∧
    ([66] : Bytes) ≠ [] ∧
    handleMsgCancelOrder strictPackage orderCtx ⟨[], [66, 7]⟩ demoKeeper
      = some (ErrInvalidAddress.Result, orderCtx) ∧
    ErrInvalidAddress.Result
      ≠ (NewError CodespaceType.StoreKey ErrCode.CodeNotMatchSender).Result := by
  refine ⟨by decide, by decide, by decide, by decide⟩

/-- C6 (amended). Cancel authorization: on every store state, a cancel-order
message whose `OrderID` names a stored order whose `Sender` differs from the
sender of the message always fails and leaves the store as it was, so that the
order remains in it, regardless of the state of the order's market; the
failure is the sender-mismatch error (`CodeNotMatchSender`) when the message
passes its stateless validation (`ValidateBasic`), which the handler runs
first. -/
theorem cancel_order_sender_mismatch (pkg : Package) (k : Keeper) (ctx : Context)
    (msg : MsgCancelOrder) (order : Order)
    (hstored : QueryOrder pkg ctx msg.OrderID = some (some order))
    (hsender : order.Sender ≠ msg.Sender) :
    (∃ r, handleMsgCancelOrder pkg ctx msg k = some (r, ctx) ∧ r.IsOK = false) ∧
    (pkg.validateCancelOrder msg = none →
      handleMsgCancelOrder pkg ctx msg k
        = some ((NewError CodespaceType.StoreKey ErrCode.CodeNotMatchSender).Result, ctx)) ∧
    ((handleMsgCancelOrder pkg ctx msg k).bind fun out => QueryOrder pkg out.2 msg.OrderID)
      = some (some order) := by
  have hpass : pkg.validateCancelOrder msg = none →
      handleMsgCancelOrder pkg ctx msg k
        = some ((NewError CodespaceType.StoreKey ErrCode.CodeNotMatchSender).Result, ctx) := by
    intro hvalid
    unfold handleMsgCancelOrder
    simp only [hvalid, hstored]
    rw [if_pos hsender]
  have hall : ∃ r, handleMsgCancelOrder pkg ctx msg k = some (r, ctx) ∧ r.IsOK = false := by
    cases hv : pkg.validateCancelOrder msg with
    | none => exact ⟨_, hpass hv, Error.Result_IsOK _⟩
    | some err =>
      refine ⟨err.Result, ?_, Error.Result_IsOK _⟩
      unfold handleMsgCancelOrder
      simp only [hv]
  refine ⟨hall, hpass, ?_⟩
  obtain ⟨r, hr, _⟩ := hall
  rw [hr]
  exact hstored

/-- Witness of C6 (amended): account `C` (byte 67) tries to cancel the order of
`B`; the message passes the validation and is refused for the sender. -/
theorem cancel_order_sender_mismatch_witness :
    handleMsgCancelOrder strictPackage orderCtx ⟨[67], [66, 7]⟩ demoKeeper
      = some ((NewError CodespaceType.StoreKey ErrCode.CodeNotMatchSender).Result, orderCtx) :=
  (cancel_order_sender_mismatch strictPackage demoKeeper orderCtx ⟨[67], [66, 7]⟩
    ⟨[66], 7, ascii "eth/cet", 2, NewDec 100000000, 10, 1, 3, 100, 0, 0, 0, 0⟩
    (by decide) (by decide)).2.1 (by decide)

/-- The delist delay with the `int64` sum of the source,
`wrapInt64 (h + MinEffectHeight)`, at every height: below the sum a
cancel-market message always fails and leaves the store as it was, with the
invalid-height error when it passes its stateless validation; at the sum, a
validated message of the creator of an existing market stores the delist
request. -/
theorem delist_delay_wrapped (pkg : Package) (k : Keeper) (ctx : Context)
    (msg : MsgCancelMarket) :
    MinEffectHeight = 10000 ∧
    (-(2 ^ 63) ≤ ctx.BlockHeight → ctx.BlockHeight + 10000 < 2 ^ 63 →
      wrapInt64 (ctx.BlockHeight + MinEffectHeight) = ctx.BlockHeight + 10000) ∧
    (msg.EffectiveHeight < wrapInt64 (ctx.BlockHeight + MinEffectHeight) →
      (∃ r, handleMsgCancelMarket pkg ctx msg k = some (r, ctx) ∧ r.IsOK = false) ∧
      (pkg.validateCancelMarket msg = none →
        handleMsgCancelMarket pkg ctx msg k
          = some ((NewError CodespaceType.CodeSpaceMarket ErrCode.CodeInvalidHeight).Result,
              ctx))) ∧
    (∀ (store : Store) (info : MarketInfo),
      pkg.validateCancelMarket msg = none →
      msg.EffectiveHeight = wrapInt64 (ctx.BlockHeight + MinEffectHeight) →
      ctx.KVStore = some store →
      GetMarketInfo pkg ctx msg.Symbol = some (some info) →
      info.Creator = msg.Sender →
      handleMsgCancelMarket pkg ctx msg k
          = some (Result.okEmpty,
              ctx.withStore
                (store.Set (delistStoreKey pkg msg.EffectiveHeight msg.Symbol) Value.marker)) ∧
        (store.Set (delistStoreKey pkg msg.EffectiveHeight msg.Symbol) Value.marker).Get
            (pkg.DelistIdentifierPrefix ++ pkg.encodeHeight msg.EffectiveHeight ++ msg.Symbol)
          = some Value.marker) := by
  refine ⟨rfl, ?_, ?_, ?_⟩
  · intro h1 h2
    exact wrapInt64_of_range _ (by simp only [MinEffectHeight]; omega)
      (by simp only [MinEffectHeight]; omega)
  · intro hlt
    have hpass : pkg.validateCancelMarket msg = none →
        handleMsgCancelMarket pkg ctx msg k
          = some ((NewError CodespaceType.CodeSpaceMarket ErrCode.CodeInvalidHeight).Result,
              ctx) := by
      intro hvalid
      unfold handleMsgCancelMarket checkMsgCancelMarket
      simp only [hvalid]
      rw [if_pos hlt]
    refine ⟨?_, hpass⟩
    cases hv : pkg.validateCancelMarket msg with
    | none => exact ⟨_, hpass hv, Error.Result_IsOK _⟩
    | some err =>
      refine ⟨err.Result, ?_, Error.Result_IsOK _⟩
      unfold handleMsgCancelMarket checkMsgCancelMarket
      simp only [hv]
  · intro store info hvalid heq hs hm hc
    refine ⟨?_, Store.Get_Set_self _ _ _⟩
    have hnlt : ¬ msg.EffectiveHeight < wrapInt64 (ctx.BlockHeight + MinEffectHeight) := by
      rw [heq]; exact lt_irrefl _
    have hcne : ¬ info.Creator ≠ msg.Sender := fun h => h hc
    unfold handleMsgCancelMarket checkMsgCancelMarket
    simp only [hvalid, hm]
    rw [if_neg hnlt, if_neg hcne]
    simp only [AddDelistRequest, hs]

/-- C7, as stated, fails at a height within `MinEffectHeight` of the largest
`int64`, and on a message that does not pass its stateless validation.  At
height `2^63 - 1` the sum `currHeight + MinEffectHeight` wraps to a negative
number, so the creator's request with `EffectiveHeight = 20000`, far below
`h + 10000`, is accepted and stored.  And at height 100 a cancel-market message
without sender identity with `EffectiveHeight = 5` is refused by
`ValidateBasic`, the first step of the check, with the invalid-address error,
not with the invalid-height error. -/
theorem cancel_market_overflow_height :
    ((20000 : Int) < (2 ^ 63 - 1) + MinEffectHeight) ∧
    handleMsgCancelMarket demoPackage ⟨tradeCtx.store, 2 ^ 63 - 1⟩
        ⟨[65], ascii "eth/cet", 20000⟩ demoKeeper
      = some (Result.okEmpty,
          ⟨some (Store.Set [(1 :: ascii "eth/cet", Value.market tradeMarket)]
              (delistStoreKey demoPackage 20000 (ascii "eth/cet")) Value.marker),
            2 ^ 63 - 1⟩) ∧
    ((5 : Int) < tradeCtx.BlockHeight + MinEffectHeight) ∧
    handleMsgCancelMarket strictPackage tradeCtx ⟨[], ascii "eth/cet", 5⟩ demoKeeper
      = some (ErrInvalidAddress.Result, tradeCtx) ∧
    ErrInvalidAddress.Result
      ≠ (NewError CodespaceType.CodeSpaceMarket ErrCode.CodeInvalidHeight).Result := by
  refine ⟨by decide, by decide, by decide, by decide, by decide⟩

/-- C7 (amended). Delist delay: at every block height `h` for which
`h + MinEffectHeight` is an `int64` (`h < 2^63 - 10000`), `MinEffectHeight =
10000`, a cancel-market message with `EffectiveHeight < h + MinEffectHeight`
always fails and leaves the store as it was, so that no delist request is
stored; the failure is the invalid-height error when the message passes its
stateless validation (`ValidateBasic`), which the check runs first.  With
`EffectiveHeight` exactly `h + MinEffectHeight`, a message that passes the
validation, sent by the creator of an existing market, succeeds and stores the
delist request under the key of `(EffectiveHeight, Symbol)`. -/
theorem cancel_market_delay (pkg : Package) (k : Keeper) (ctx : Context)
    (msg : MsgCancelMarket)
    (hlow : -(2 ^ 63) ≤ ctx.BlockHeight) (hhigh : ctx.BlockHeight + MinEffectHeight < 2 ^ 63) :
    MinEffectHeight = 10000 ∧
    (msg.EffectiveHeight < ctx.BlockHeight + MinEffectHeight →
      (∃ r, handleMsgCancelMarket pkg ctx msg k = some (r, ctx) ∧ r.IsOK = false) ∧
      (pkg.validateCancelMarket msg = none →
        handleMsgCancelMarket pkg ctx msg k
          = some ((NewError CodespaceType.CodeSpaceMarket ErrCode.CodeInvalidHeight).Result,
              ctx))) ∧
    (∀ (store : Store) (info : MarketInfo),
      pkg.validateCancelMarket msg = none →
      msg.EffectiveHeight = ctx.BlockHeight + MinEffectHeight →
      ctx.KVStore = some store →
      GetMarketInfo pkg ctx msg.Symbol = some (some info) →
      info.Creator = msg.Sender →
      handleMsgCancelMarket pkg ctx msg k
          = some (Result.okEmpty,
              ctx.withStore
                (store.Set (delistStoreKey pkg msg.EffectiveHeight msg.Symbol) Value.marker)) ∧
        (store.Set (delistStoreKey pkg msg.EffectiveHeight msg.Symbol) Value.marker).Get
            (pkg.DelistIdentifierPrefix ++ pkg.encodeHeight msg.EffectiveHeight ++ msg.Symbol)
          = some Value.marker) := by
  have hw : wrapInt64 (ctx.BlockHeight + MinEffectHeight) = ctx.BlockHeight + MinEffectHeight :=
    wrapInt64_of_range _ (by simp only [MinEffectHeight] at hhigh ⊢; omega) hhigh
  have h := delist_delay_wrapped pkg k ctx msg
  rw [hw] at h
  exact ⟨h.1, h.2.2.1, h.2.2.2⟩

/-- Witness of C7 (amended): at height 100 on the store holding `eth/cet`, the
creator `A` asks for a delisting at height 10099 (refused) and at height 10100
(stored). -/
theorem cancel_market_delay_witness :
    handleMsgCancelMarket strictPackage tradeCtx ⟨[65], ascii "eth/cet", 10099⟩ demoKeeper
      = some ((NewError CodespaceType.CodeSpaceMarket ErrCode.CodeInvalidHeight).Result,
          tradeCtx) ∧
    handleMsgCancelMarket strictPackage tradeCtx ⟨[65], ascii "eth/cet", 10100⟩ demoKeeper
      = some (Result.okEmpty,
          tradeCtx.withStore
            (Store.Set [(1 :: ascii "eth/cet", Value.market tradeMarket)]
              (delistStoreKey strictPackage 10100 (ascii "eth/cet")) Value.marker)) :=
  ⟨((cancel_market_delay strictPackage demoKeeper tradeCtx
        ⟨[65], ascii "eth/cet", 10099⟩ (by decide) (by decide)).2.1 (by decide)).2 (by decide),
    ((cancel_market_delay strictPackage demoKeeper tradeCtx
        ⟨[65], ascii "eth/cet", 10100⟩ (by decide) (by decide)).2.2
      [(1 :: ascii "eth/cet", Value.market tradeMarket)] tradeMarket
      (by decide) (by decide) (by decide) (by decide) (by decide)).1⟩

/-! ## The order check -/

/-- From precision 19 on the power of ten is out of range and the conversion
gives the smallest `int64`. -/
theorem int64OfPow10_of_gt (p : Nat) (hp : 18 < p) : int64OfPow10 p = -(2 ^ 63) := by
  unfold int64OfPow10
  have h1 : (10 : Int) ^ 19 ≤ 10 ^ p := pow_le_pow_right₀ (by norm_num) hp
  have h2 : (2 : Int) ^ 63 < 10 ^ 19 := by norm_num
  rw [if_neg (by omega)]

/-- On `int64` price and quantity the freeze amount is computed without a
panic, whatever the precision. -/
theorem freezeAmount_isSome (price quantity : Int) (p : Nat)
    (hp1 : -(2 ^ 63) ≤ price) (hp2 : price < 2 ^ 63)
    (hq1 : -(2 ^ 63) ≤ quantity) (hq2 : quantity < 2 ^ 63) :
    ∃ r : Int, freezeAmount price quantity p = some r := by
  by_cases hp : p ≤ 18
  · exact ⟨_, freezeAmount_of_le price quantity p hp hp1 hp2 hq1 hq2⟩
  · have hpn := natAbs_le_of_int64 price hp1 hp2
    have hqn := natAbs_le_of_int64 quantity hq1 hq2
    have hpr : precisionReuse = 10 ^ 18 := rfl
    -- the quotient by the smallest int64
    have hquoB : (Int.tdiv (price * 10 ^ 18 * 10 ^ 18 * 10 ^ 18) (-(2 ^ 63) * 10 ^ 18)).natAbs
        ≤ 10 ^ 36 := by
      rw [Int.natAbs_tdiv]
      have e1 : (price * 10 ^ 18 * 10 ^ 18 * 10 ^ 18).natAbs = price.natAbs * 10 ^ 54 := by
        rw [show price * 10 ^ 18 * 10 ^ 18 * 10 ^ 18 = price * 10 ^ 54 by ring, Int.natAbs_mul]
        rfl
      have e2 : (-(2 ^ 63) * 10 ^ 18 : Int).natAbs = 2 ^ 63 * 10 ^ 18 := by rfl
      rw [e1, e2]
      calc (price.natAbs * 10 ^ 54).div (2 ^ 63 * 10 ^ 18)
          ≤ (2 ^ 63 * 10 ^ 54) / (2 ^ 63 * 10 ^ 18) :=
            Nat.div_le_div_right (Nat.mul_le_mul_right _ hpn)
        _ = 10 ^ 36 := by norm_num
    obtain ⟨q, hq⟩ : ∃ q, q = Int.tdiv (price * 10 ^ 18 * 10 ^ 18 * 10 ^ 18)
        (-(2 ^ 63) * 10 ^ 18) := ⟨_, rfl⟩
    rw [← hq] at hquoB
    have hc1 : (chopPrecisionAndRound q).natAbs ≤ 10 ^ 18 + 1 := by
      have hnear1 := chopPrecisionAndRound_near q
      generalize chopPrecisionAndRound q = c at hnear1
      norm_num only at hnear1 hquoB ⊢
      omega
    have hquo : (NewDec price).Quo (NewDec (int64OfPow10 p))
        = some ⟨chopPrecisionAndRound q⟩ := by
      unfold Dec.Quo NewDec
      rw [int64OfPow10_of_gt p (by omega), hpr]
      simp only
      rw [if_neg (by norm_num), ← hq]
      have hov : decOverflow (chopPrecisionAndRound q) = false := by
        unfold decOverflow
        rw [decide_eq_false_iff_not, not_le]
        calc (chopPrecisionAndRound q).natAbs ≤ 10 ^ 18 + 1 := hc1
          _ < 2 ^ 315 := by norm_num
      rw [hov]; rfl
    have hM : (chopPrecisionAndRound q * quantity).natAbs ≤ (10 ^ 18 + 1) * 2 ^ 63 := by
      rw [Int.natAbs_mul]
      exact Nat.mul_le_mul hc1 hqn
    have hmul : calculateAmount price quantity p
        = some ⟨chopPrecisionAndRound q * quantity⟩ := by
      unfold calculateAmount
      rw [hquo]
      simp only
      unfold Dec.Mul NewDec
      rw [hpr]
      simp only
      rw [show chopPrecisionAndRound q * (quantity * 10 ^ 18)
          = chopPrecisionAndRound q * quantity * 10 ^ 18 by ring, chopPrecisionAndRound_mul]
      have hov : decOverflow (chopPrecisionAndRound q * quantity) = false := by
        unfold decOverflow
        rw [decide_eq_false_iff_not, not_le]
        calc (chopPrecisionAndRound q * quantity).natAbs ≤ (10 ^ 18 + 1) * 2 ^ 63 := hM
          _ < 2 ^ 315 := by norm_num
      rw [hov]; rfl
    refine ⟨chopPrecisionAndRound (chopPrecisionAndRound q * quantity), ?_⟩
    unfold freezeAmount
    rw [hmul]
    simp only [Dec.RoundInt]
    have hnear3 := chopPrecisionAndRound_near (chopPrecisionAndRound q * quantity)
    generalize chopPrecisionAndRound q * quantity = M at hnear3 hM
    generalize chopPrecisionAndRound M = c at hnear3
    norm_num only at hnear3 hM ⊢
    rw [if_neg (by omega)]

/-- A string without the separator is a single piece. -/
theorem Split_of_not_mem (s : Bytes) (sep : Nat) (hs : sep ∉ s) : Split s sep = [s] := by
  induction s with
  | nil => rfl
  | cons c cs ih =>
    have hc : c ≠ sep := fun h => hs (by simp [h])
    have hcs : sep ∉ cs := fun h => hs (by simp [h])
    simp [Split, hc, ih hcs]

/-- The pieces of `stock ++ sep :: rest`, for a `stock` without the separator:
`stock`, then the pieces of `rest`. -/
theorem Split_append (stock rest : Bytes) (sep : Nat) (hs : sep ∉ stock) :
    Split (stock ++ sep :: rest) sep = stock :: Split rest sep := by
  induction stock with
  | nil => simp [Split]
  | cons c cs ih =>
    have hc : c ≠ sep := fun h => hs (by simp [h])
    have hcs : sep ∉ cs := fun h => hs (by simp [h])
    simp [Split, hc, ih hcs]

/-- C8, as stated, fails in two ways.  Where the balance is missing and the
denomination is frozen at once, the order is rejected with the
insufficient-coins error, not with the frozen-by-issuer error: the sell order
of `B` on `eth/cet`, `B` holding no `eth` and `eth` being frozen.  And where
`sdk.NewCoin` does not accept the denomination the ledger is never asked and
the order is not rejected at all, the check panics: the buy order on the
upper-case symbol `ETH/CET`, with the balance missing. -/
theorem checkMsgCreateOrder_frozen_and_insufficient :
    ledgerKeeper.axk.IsTokenFrozen tradeCtx (ascii "eth") = true ∧
    ledgerKeeper.bnk.HasCoins tradeCtx sellMsg.Sender [⟨ascii "eth", 10⟩] = false ∧
    checkMsgCreateOrder demoPackage tradeCtx [] sellMsg ledgerKeeper
      = some ErrInsufficientCoins.Result ∧
    ErrInsufficientCoins.Result ≠ ErrTokenFrozenByIssuer.Result ∧
    frozenKeeper.bnk.HasCoins marketCtx upperBuyMsg.Sender [⟨ascii "CET", 10⟩] = false ∧
    checkMsgCreateOrder demoPackage marketCtx [] upperBuyMsg frozenKeeper = none := by
  refine ⟨by decide, by decide, by decide, by decide, by decide, by decide⟩

/-- C8 (amended). Side determines the locked denomination: for a create-order
message on a symbol `Stock/Money` that passes message validation and the
precision check (the market exists and the precision of the order is at most
the market's), the rounded obligation is computed, and the locked denomination
is `Money` when the side is `BUY` and `Stock` otherwise.  When that
denomination is one the coin library accepts and the obligation is not
negative, the coin whose sufficiency `checkMsgCreateOrder` asks of the balance
ledger and whose freeze flag it asks of the asset registry has that
denomination and the obligation as amount; the order is rejected with the
insufficient-coins error when that balance is missing, and with the
frozen-by-issuer error when that balance is there and that denomination is
frozen; otherwise the check passes.  When the denomination is not accepted or
the obligation is negative, `sdk.NewCoin` panics and nothing is asked. -/
theorem checkMsgCreateOrder_denomination (pkg : Package) (k : Keeper) (ctx : Context)
    (store : Store) (msg : MsgCreateOrder) (Stock Money : Bytes) (info : MarketInfo)
    (hvalid : pkg.validateCreateOrder msg = none)
    (hsym : msg.Symbol = Stock ++ SymbolSeparator ++ Money)
    (hS : SymbolSeparatorByte ∉ Stock) (hM : SymbolSeparatorByte ∉ Money)
    (hmarket : GetMarketInfo pkg ctx msg.Symbol = some (some info))
    (hprec : msg.PricePrecision ≤ info.PricePrecision)
    (hp1 : -(2 ^ 63) ≤ msg.Price) (hp2 : msg.Price < 2 ^ 63)
    (hq1 : -(2 ^ 63) ≤ msg.Quantity) (hq2 : msg.Quantity < 2 ^ 63) :
    (∃ amount : Int, freezeAmount msg.Price msg.Quantity msg.PricePrecision = some amount) ∧
    ∀ amount : Int, freezeAmount msg.Price msg.Quantity msg.PricePrecision = some amount →
      (validDenom (if msg.Side = pkg.BUY then Money else Stock) = true → 0 ≤ amount →
        checkMsgCreateOrder pkg ctx store msg k =
          some (
            if k.bnk.HasCoins ctx msg.Sender
                [⟨if msg.Side = pkg.BUY then Money else Stock, amount⟩] = false then
              ErrInsufficientCoins.Result
            else if k.axk.IsTokenFrozen ctx (if msg.Side = pkg.BUY then Money else Stock)
                = true then
              ErrTokenFrozenByIssuer.Result
            else Result.okEmpty)) ∧
      (validDenom (if msg.Side = pkg.BUY then Money else Stock) = false ∨ amount < 0 →
        checkMsgCreateOrder pkg ctx store msg k = none) := by
  refine ⟨freezeAmount_isSome msg.Price msg.Quantity msg.PricePrecision hp1 hp2 hq1 hq2, ?_⟩
  intro amount hamount
  have hsplit : Split msg.Symbol SymbolSeparatorByte = [Stock, Money] := by
    rw [hsym]
    have e : Stock ++ SymbolSeparator ++ Money = Stock ++ SymbolSeparatorByte :: Money := by
      simp [SymbolSeparator]
    rw [e, Split_append Stock Money _ hS, Split_of_not_mem Money _ hM]
  have hnot : ¬ msg.PricePrecision > info.PricePrecision := by omega
  have hdenom : (if msg.Side = pkg.BUY then [Stock, Money][1]? else some Stock)
      = some (if msg.Side = pkg.BUY then Money else Stock) := by
    split_ifs <;> rfl
  have hcheck : checkMsgCreateOrder pkg ctx store msg k =
      match NewCoin (if msg.Side = pkg.BUY then Money else Stock) amount with
      | none => none
      | some coin =>
        if !k.bnk.HasCoins ctx msg.Sender [coin] then some ErrInsufficientCoins.Result
        else if k.axk.IsTokenFrozen ctx (if msg.Side = pkg.BUY then Money else Stock) then
          some ErrTokenFrozenByIssuer.Result
        else some Result.okEmpty := by
    unfold checkMsgCreateOrder
    simp only [hvalid, hsplit, List.getElem?_cons_zero, hdenom, hmarket, if_neg hnot, hamount]
  rw [hcheck]
  constructor
  · intro hv ha
    have hcoin : NewCoin (if msg.Side = pkg.BUY then Money else Stock) amount
        = some ⟨if msg.Side = pkg.BUY then Money else Stock, amount⟩ := by
      unfold NewCoin
      rw [hv]
      simp only [Bool.not_true, Bool.false_eq_true, ↓reduceIte, if_neg (not_lt.mpr ha)]
    rw [hcoin]
    simp only
    split_ifs <;> simp_all
  · intro hbad
    have hcoin : NewCoin (if msg.Side = pkg.BUY then Money else Stock) amount = none := by
      unfold NewCoin
      rcases hbad with hv | ha
      · rw [hv]; rfl
      · split_ifs <;> rfl
    rw [hcoin]

/-- Witness of C8 (amended), on a ledger that tells accounts and denominations
apart (`B` holds 10 `cet`, `A` holds 10 `eth`, `eth` is frozen): the buy order
of `B` asks for 10 `cet` and passes; the sell order of `B` asks for 10 `eth`,
which `B` does not hold, and is rejected for the balance; the sell order of
`A`, who holds the `eth`, is rejected for the freeze. -/
theorem checkMsgCreateOrder_denomination_witness :
    checkMsgCreateOrder demoPackage tradeCtx [] buyMsg ledgerKeeper = some Result.okEmpty ∧
    checkMsgCreateOrder demoPackage tradeCtx [] sellMsg ledgerKeeper
      = some ErrInsufficientCoins.Result ∧
    checkMsgCreateOrder demoPackage tradeCtx [] issuerSellMsg ledgerKeeper
      = some ErrTokenFrozenByIssuer.Result :=
  ⟨(((checkMsgCreateOrder_denomination demoPackage ledgerKeeper tradeCtx [] buyMsg
        (ascii "eth") (ascii "cet") tradeMarket (by decide) (by decide) (by decide) (by decide)
        (by decide) (by decide) (by decide) (by decide) (by decide) (by decide)).2 10
        (by decide)).1 (by decide) (by decide)).trans (by decide),
    (((checkMsgCreateOrder_denomination demoPackage ledgerKeeper tradeCtx [] sellMsg
        (ascii "eth") (ascii "cet") tradeMarket (by decide) (by decide) (by decide) (by decide)
        (by decide) (by decide) (by decide) (by decide) (by decide) (by decide)).2 10
        (by decide)).1 (by decide) (by decide)).trans (by decide),
    (((checkMsgCreateOrder_denomination demoPackage ledgerKeeper tradeCtx [] issuerSellMsg
        (ascii "eth") (ascii "cet") tradeMarket (by decide) (by decide) (by decide) (by decide)
        (by decide) (by decide) (by decide) (by decide) (by decide) (by decide)).2 10
        (by decide)).1 (by decide) (by decide)).trans (by decide)⟩

/-! ## Genesis migration -/

namespace Cetd

/-- The loop body migrates one order as the specification words it. -/
theorem upgradeOrder_Migrated (v : Order) : Migrated v (upgradeOrder v) := by
  unfold Migrated upgradeOrder
  constructor
  · intro h
    rw [if_pos h]
    exact ⟨rfl, rfl, rfl⟩
  · intro h
    rw [if_neg (not_not.mpr h)]

/-- The loop body changes nothing on an order it has already migrated. -/
theorem upgradeOrder_idem (v : Order) : upgradeOrder (upgradeOrder v) = upgradeOrder v := by
  unfold upgradeOrder
  split_ifs <;> simp_all

/-- Every order of a list is migrated, in place. -/
theorem Forall₂_Migrated_map (orders : List Order) :
    List.Forall₂ Migrated orders (orders.map upgradeOrder) := by
  induction orders with
  | nil => exact List.Forall₂.nil
  | cons v vs ih => exact List.Forall₂.cons (upgradeOrder_Migrated v) ih

/-- C9. Legacy-field migration: for every genesis state, after
`upgradeGenesisState` the market orders are as many as before and in the same
order, and position by position each order whose `FrozenFee` was non-zero has
`FrozenCommission` equal to its former `FrozenFee`, `FrozenFee` equal to 0 and
its other fields kept, and each order whose `FrozenFee` was 0 is unchanged (its
`FrozenCommission` is kept). -/
theorem upgradeGenesisState_orders (dflt : Defaults) (genState : GenesisState) :
    (upgradeGenesisState dflt genState).MarketData.Orders.length
      = genState.MarketData.Orders.length ∧
    List.Forall₂ Migrated genState.MarketData.Orders
      (upgradeGenesisState dflt genState).MarketData.Orders := by
  unfold upgradeGenesisState
  exact ⟨List.length_map _ _, Forall₂_Migrated_map _⟩

/-- C10. Migration idempotence: applying `upgradeGenesisState` twice to a
genesis state yields the same genesis state as applying it once. -/
theorem upgradeGenesisState_idem (dflt : Defaults) (genState : GenesisState) :
    upgradeGenesisState dflt (upgradeGenesisState dflt genState)
      = upgradeGenesisState dflt genState := by
  unfold upgradeGenesisState
  simp only [List.map_map]
  congr 2
  apply List.map_congr_left
  intro v _
  exact upgradeOrder_idem v

end Cetd

/-! ## The consistency invariant of bancorlite -/

namespace Bancorlite

/-- `Iterate` hands the visitor the visited records one after the other and
returns the context it was given. -/
theorem BancorInfoKeeper.Iterate_eq {α : Type} (bik : BancorInfoKeeper) (ctx : Context)
    (visit : α → BancorInfo → α) (init : α) :
    bik.Iterate ctx visit init = ((visited ctx).foldl visit init, ctx) := by
  simp [BancorInfoKeeper.Iterate, visited, List.foldl_map]

/-- The visitor of the invariant, run over a list of records from any values of
`count` and `msg`: `count` grows by the number of failing records and `msg` by
their sentences, in order. -/
theorem visit_foldl (pkg : Package) (records : List BancorInfo) (count : Nat) (msg : Bytes) :
    records.foldl
        (fun (vars : Nat × Bytes) (bi : BancorInfo) =>
          if !pkg.IsConsistent bi then
            (vars.1 + 1,
              vars.2 ++ (ascii " bancor Info " ++ (bi.Stock ++ pkg.SymbolSeparator ++ bi.Money)
                ++ ascii " consistency is broken!"))
          else vars)
        (count, msg)
      = (count + records.countP (fun bi => !pkg.IsConsistent bi),
          msg ++ ((records.filter fun bi => !pkg.IsConsistent bi).map (brokenLine pkg)).flatten) := by
  induction records generalizing count msg with
  | nil => simp
  | cons bi rest ih =>
    rw [List.foldl_cons]
    by_cases h : pkg.IsConsistent bi = true
    · simp only [h, Bool.not_true, Bool.false_eq_true, ↓reduceIte]
      rw [ih]
      simp [h]
    · have h2 : pkg.IsConsistent bi = false := by simpa using h
      simp only [h2, Bool.not_false, ↓reduceIte]
      rw [ih]
      simp [h2, brokenLine, List.countP_cons]
      omega

/-- C11. Invariant scan: in every state, `BancorInfoConsistencyInvariant`
returns `broken = true` if and only if at least one record visited by the
keeper's `Iterate` fails `IsConsistent`; the count in its summary is the number
of such records; the summary names the `Stock/Money` symbol of each failing
record, one sentence each, in iteration order; and the context after the scan
is the context before it. -/
theorem BancorInfoConsistencyInvariant_scan (pkg : Package) (keeper : Keeper) (ctx : Context) :
    ((BancorInfoConsistencyInvariant pkg keeper ctx).1.2 = true ↔
        ∃ bi ∈ visited ctx, pkg.IsConsistent bi = false) ∧
    (BancorInfoConsistencyInvariant pkg keeper ctx).1.1 = expectedSummary pkg (visited ctx) ∧
    (BancorInfoConsistencyInvariant pkg keeper ctx).2 = ctx := by
  unfold BancorInfoConsistencyInvariant
  simp only [BancorInfoKeeper.Iterate_eq, visit_foldl, Nat.zero_add, List.nil_append]
  refine ⟨?_, ?_, ?_⟩
  · simp [List.countP_pos_iff]
  · rfl
  · trivial

/-- The invariant evaluated on a state of three records, the first and the
third inconsistent: two records are counted and named in order, the flag is
set. -/
theorem BancorInfoConsistencyInvariant_demo :
    BancorInfoConsistencyInvariant demoPackage ⟨⟨[]⟩⟩ demoCtx
      = ((ascii ("bancorlite: bancor info inconsistency invariant\n"
            ++ "found 2 bancor info inconsistent with initialization "
            ++ " bancor Info abc/cet consistency is broken!"
            ++ " bancor Info eth/cet consistency is broken!\n"), true), demoCtx) := by
  rfl

end Bancorlite

end Dex
